import Mathlib

/-!
# Mirror: a shallow embedding of `include/mirror.hpp`

The header is a compile-time reflection facility.  Everything it decides is decided by the
C++ template machinery (partial-specialization selection, template argument deduction,
`if constexpr` on `std::is_invocable_v`), so the embedding makes those decisions explicit:
every operation returns `Except Reject _`, where an `error` stands for "the program is
ill-formed; nothing runs", and an `ok` carries what the generated code does.

* a C++ type formed from a class by `const`, `volatile`, `&`, `&&` is a `CType`;
* an object of a class is a store from member designators to values, and a pointer to member
  `FieldType Class::*` is a member designator, so `val.*(fld.pointerToField)` designates the
  storage `val fld.pointerToField`;
* a visitor `Fn` is given by the argument lists it can be called with (type, constness and
  value category of every argument, so that the arguments of a trait `std::is_invocable_v` and
  those of the call that follows it are told apart) and by what each of its call shapes does;
* the invocations of the visitor are recorded, oldest first, in `calls`.

Class hierarchies are outside the model: the object expression of `.*` has to be of the class
`Class` of the pointer to member itself.
-/

namespace mirror

/-- Reasons for which a use of the header is ill-formed. -/
inductive Reject where
  /-- The qualified name `T::reflection` does not name a static member. -/
  | no_reflection_member
  /-- More than one partial specialization matches and none is more specialized. -/
  | ambiguous_specialization
  /-- A template parameter that is not a pack is left without an argument. -/
  | cannot_deduce_Class
  /-- A template parameter (pack) is deduced to two different arguments. -/
  | inconsistent_deduction
  /-- A call `std::get<I>` with `I` not less than the tuple size. -/
  | index_out_of_range
  /-- An expression `val.*ptr` where `val` is not of the class of `ptr`. -/
  | bad_member_pointer
  /-- The visitor cannot be called with the arguments of the selected call. -/
  | not_invocable
  /-- A class names the same direct base class twice. -/
  | duplicate_base
  /-- A qualified name `T::reflection` where `T` is a reference type. -/
  | not_a_class
  /-- The recursion bound of the embedding is exhausted (never reached, see below). -/
  | out_of_fuel
  deriving DecidableEq, Repr

/-! ## Field descriptor model (`struct field`) -/

/-- One attribute: a base-class subobject of the descriptor, of class `kind`. -/
structure Attr (V : Type) where
  kind : String
  value : V
  deriving DecidableEq, Repr

/-- The object `field<Class, FieldType, Attributes...>`: the base subobjects `Attributes...` in
the order of the pack, then the members `name` and `pointerToField`. -/
structure field (V : Type) where
  Class : String
  FieldType : String
  Attributes : List (Attr V)
  name : String
  pointerToField : Nat
  deriving DecidableEq, Repr

/-- The template arguments `<Class, FieldType, Attributes...>` of a descriptor type. -/
structure FieldArgs where
  Class : String
  FieldType : String
  Attributes : List String
  deriving DecidableEq, Repr

/-- The pack `Attributes...` of a descriptor. -/
def field.kinds {V : Type} (fld : field V) : List String :=
  fld.Attributes.map Attr.kind

/-- The static type of a descriptor. -/
def field.args {V : Type} (fld : field V) : FieldArgs :=
  ⟨fld.Class, fld.FieldType, fld.kinds⟩

/-- The constructor `field(name, pointerToField, attr...)` of `field<Class, FieldType, Attributes...>`
(also what the deduction guide of line 28 selects): each base subobject is initialised from its
argument, then `name` and `pointerToField`.  The class `field<...>` exists only if the pack
names no class twice. -/
def field.ctor {V : Type} (Class FieldType : String) (name : String) (pointerToField : Nat)
    (attr : List (Attr V)) : Except Reject (field V) :=
  if (attr.map Attr.kind).Nodup then
    .ok ⟨Class, FieldType, attr, name, pointerToField⟩
  else
    .error .duplicate_base

/-- The base-class subobject of class `kind` of a descriptor, what `static_cast<const A&>(fld)`
designates; `none` when `kind` is not a base of the descriptor. -/
def field.attribute {V : Type} (fld : field V) (kind : String) : Option V :=
  (fld.Attributes.find? (fun a => a.kind == kind)).map Attr.value

/-! ## Descriptor registry (`reflection_of`, `reflection_num_fields`) -/

/-- Value category wrapper of a type. -/
inductive RefKind where
  | value
  | lref
  | rref
  deriving DecidableEq, Repr

/-- The type `cv cls`, `cv cls&` or `cv cls&&`. -/
structure CType where
  cls : String
  isConst : Bool
  isVolatile : Bool
  ref : RefKind
  deriving DecidableEq, Repr

/-- The program: for each class, its static member `reflection` when it declares one. -/
abbrev Registry (V : Type) := String → Option (List (field V))

/-- The partial specializations of `reflection_of` (lines 36 to 43). -/
inductive PartialSpec where
  /-- The specialization `reflection_of<const T>`. -/
  | constT
  /-- The specialization `reflection_of<volatile T>`. -/
  | volatileT
  /-- The specialization `reflection_of<T&>`. -/
  | lrefT
  /-- The specialization `reflection_of<T&&>`. -/
  | rrefT
  deriving DecidableEq, Repr

/-- Matching a type against the argument list of a partial specialization: the deduced `T`. -/
def PartialSpec.deduce : PartialSpec → CType → Option CType
  | .constT, t =>
    if t.ref = .value ∧ t.isConst = true then some { t with isConst := false } else none
  | .volatileT, t =>
    if t.ref = .value ∧ t.isVolatile = true then some { t with isVolatile := false } else none
  | .lrefT, t => if t.ref = .lref then some { t with ref := .value } else none
  | .rrefT, t => if t.ref = .rref then some { t with ref := .value } else none

/-- The deduced `T` of every partial specialization that matches.  No two of the four argument
lists `const T`, `volatile T`, `T&`, `T&&` are ordered by specialization, so two matches are an
ambiguity. -/
def matching (t : CType) : List CType :=
  [PartialSpec.constT, .volatileT, .lrefT, .rrefT].filterMap (fun s => s.deduce t)

/-- The primary template `reflection_of<T> = T::reflection` (line 35).  The qualified name is
ill-formed when `T` is a reference type; for a class type, cv-qualified or not, it names the
static member `reflection` of the class if the class declares one. -/
def reflection_of_primary {V : Type} (reg : Registry V) (t : CType) :
    Except Reject (List (field V)) :=
  if t.ref ≠ .value then
    .error .not_a_class
  else
    match reg t.cls with
    | some fields => .ok fields
    | none => .error .no_reflection_member

/-- Instantiation of `reflection_of<t>`, with a bound on the chain of specializations: the one
partial specialization that matches when there is one (lines 36 to 43), the primary template
when none does. -/
def reflection_of_aux {V : Type} (reg : Registry V) : Nat → CType → Except Reject (List (field V))
  | 0, _ => .error .out_of_fuel
  | fuel + 1, t =>
    match matching t with
    | [] => reflection_of_primary reg t
    | [u] => reflection_of_aux reg fuel u
    | _ => .error .ambiguous_specialization

/-- The variable template `reflection_of<T>`.  A type carries at most three wrappers (a reference,
`const`, `volatile`), each specialization removes one, so four instantiations always suffice. -/
def reflection_of {V : Type} (reg : Registry V) (T : CType) : Except Reject (List (field V)) :=
  reflection_of_aux reg 4 T

/-- The variable template `reflection_num_fields<T>`: the tuple size of the type of
`reflection_of<T>`. -/
def reflection_num_fields {V : Type} (reg : Registry V) (T : CType) : Except Reject Nat :=
  (reflection_of reg T).map List.length

/-! ## Field iteration engine (`call_fn`, `for_each_field`) -/

/-- One invocation of the visitor, by call shape. -/
inductive Call (V : Type) where
  /-- The call `fn(fld.name, val.*(fld.pointerToField), fld)`. -/
  | name_value_field (name : String) (value : V) (fld : field V)
  /-- The call `fn(fld.name, val.*(fld.pointerToField))`. -/
  | name_value (name : String) (value : V)
  /-- The call `fn(fld.name, fld)`. -/
  | name_field (name : String) (fld : field V)
  /-- The call `fn(fld.name)`. -/
  | name_only (name : String)
  deriving DecidableEq, Repr

/-- The first argument of an invocation. -/
def Call.name {V : Type} : Call V → String
  | .name_value_field n _ _ => n
  | .name_value n _ => n
  | .name_field n _ => n
  | .name_only n => n

/-- The value designated by the reference argument of an invocation, when it has one. -/
def Call.value {V : Type} : Call V → Option V
  | .name_value_field _ v _ => some v
  | .name_value _ v => some v
  | .name_field _ _ => none
  | .name_only _ => none

/-- The descriptor argument of an invocation, when it has one. -/
def Call.descriptor {V : Type} : Call V → Option (field V)
  | .name_value_field _ _ d => some d
  | .name_value _ _ => none
  | .name_field _ d => some d
  | .name_only _ => none

/-- The type of an argument of a call of the visitor. -/
inductive ArgType where
  /-- The type `std::string_view`. -/
  | string_view
  /-- The type `FieldType` of a member. -/
  | member (FieldType : String)
  /-- The type `field<Class, FieldType, Attributes...>`. -/
  | descriptor (args : FieldArgs)
  deriving DecidableEq, Repr

/-- An argument of a call of the visitor, as overload resolution sees it: its type, the
cv-qualification of that type, and whether the expression is an lvalue. -/
structure Arg where
  type : ArgType
  isConst : Bool
  isVolatile : Bool
  isLvalue : Bool
  deriving DecidableEq, Repr

/-- The argument `std::string_view` of the traits of lines 57 and 65: a non-const rvalue. -/
def Arg.name_of_trait : Arg := ⟨.string_view, false, false, false⟩

/-- The argument `FieldType&` of the trait of line 57: a non-const lvalue. -/
def Arg.value_of_trait (FieldType : String) : Arg := ⟨.member FieldType, false, false, true⟩

/-- The argument `field<Class, FieldType, Attributes...>` of the traits of lines 57 and 65: a
non-const rvalue. -/
def Arg.field_of_trait (a : FieldArgs) : Arg := ⟨.descriptor a, false, false, false⟩

/-- The argument `fld.name` of the calls of lines 59, 61, 66 and 68: `fld` is a reference to
const, so a const lvalue. -/
def Arg.name_of_call : Arg := ⟨.string_view, true, false, true⟩

/-- The argument `val.*(fld.pointerToField)` of the calls of lines 59 and 61: an lvalue with the
cv-qualification of the object `val`, of type `T`. -/
def Arg.value_of_call (T : CType) (FieldType : String) : Arg :=
  ⟨.member FieldType, T.isConst, T.isVolatile, true⟩

/-- The argument `fld` of the calls of lines 59 and 66: a const lvalue. -/
def Arg.field_of_call (a : FieldArgs) : Arg := ⟨.descriptor a, true, false, true⟩

/-- Whether a parameter of type `std::string_view` can be initialised from the argument. -/
def Arg.isName (a : Arg) : Bool := a.type == .string_view && !a.isVolatile

/-- Whether the argument is a member of some type `FieldType`. -/
def Arg.isMember (a : Arg) : Bool :=
  match a.type with
  | .member _ => true
  | _ => false

/-- Whether the argument is a descriptor. -/
def Arg.isDescriptor (a : Arg) : Bool :=
  match a.type with
  | .descriptor _ => true
  | _ => false

/-- Whether the argument is a descriptor of a field of type `FieldType`. -/
def Arg.isDescriptorOf (FieldType : String) (a : Arg) : Bool :=
  match a.type with
  | .descriptor x => x.FieldType == FieldType
  | _ => false

/-- A visitor `Fn` with state `S`.  The member `invocable` answers whether a call expression of
the visitor with the given arguments is well-formed, instantiation of its body included (a
visitor that assigns through its reference parameter is not invocable with a const value); it
is what both `std::is_invocable_v<Fn, Args...>` and a call `fn(args...)` ask, each of its own
arguments.  The four `call` members say what a call of each shape does.  A call that receives
the reference to the member returns, next to the new state of the visitor, the value the
referenced storage holds when the call returns (the value received, if the visitor does not
write).  The visitor reaches the object only through the reference it is handed. -/
structure Visitor (V S : Type) where
  invocable : List Arg → Bool
  call_name_value_field : S → String → V → field V → S × V
  call_name_value : S → String → V → S × V
  call_name_field : S → String → field V → S
  call_name : S → String → S

/-- The trait of line 57, `std::is_invocable_v<Fn, std::string_view, FieldType&, field<Class,
FieldType, Attributes...>>`. -/
def Visitor.invocable_name_value_field {V S : Type} (fn : Visitor V S) (a : FieldArgs) : Bool :=
  fn.invocable [Arg.name_of_trait, Arg.value_of_trait a.FieldType, Arg.field_of_trait a]

/-- The trait of line 65, `std::is_invocable_v<Fn, std::string_view, field<Class, FieldType,
Attributes...>>`. -/
def Visitor.invocable_name_field {V S : Type} (fn : Visitor V S) (a : FieldArgs) : Bool :=
  fn.invocable [Arg.name_of_trait, Arg.field_of_trait a]

/-- Whether the call of line 59, `fn(fld.name, val.*(fld.pointerToField), fld)`, is well-formed
for an object of type `T`. -/
def Visitor.accepts_name_value_field {V S : Type} (fn : Visitor V S) (T : CType)
    (a : FieldArgs) : Bool :=
  fn.invocable [Arg.name_of_call, Arg.value_of_call T a.FieldType, Arg.field_of_call a]

/-- Whether the call of line 61, `fn(fld.name, val.*(fld.pointerToField))`, is well-formed for an
object of type `T`. -/
def Visitor.accepts_name_value {V S : Type} (fn : Visitor V S) (T : CType)
    (FieldType : String) : Bool :=
  fn.invocable [Arg.name_of_call, Arg.value_of_call T FieldType]

/-- Whether the call of line 66, `fn(fld.name, fld)`, is well-formed. -/
def Visitor.accepts_name_field {V S : Type} (fn : Visitor V S) (a : FieldArgs) : Bool :=
  fn.invocable [Arg.name_of_call, Arg.field_of_call a]

/-- Whether the call of line 68, `fn(fld.name)`, is well-formed. -/
def Visitor.invocable_name {V S : Type} (fn : Visitor V S) : Bool :=
  fn.invocable [Arg.name_of_call]

/-- Whether the call of line 61 is well-formed for a field of type `FieldType` of an object that
is neither const nor volatile. -/
def Visitor.invocable_name_value {V S : Type} (fn : Visitor V S) (FieldType : String) : Bool :=
  fn.invocable [Arg.name_of_call, ⟨.member FieldType, false, false, true⟩]

/-- What is observable of an enumeration over an object: the object `val`, the visitor `fn`, and
the invocations made so far. -/
structure Run (V S : Type) where
  val : Nat → V
  fn : S
  calls : List (Call V)

/-- What is observable of a metadata-only enumeration: the visitor and the invocations made. -/
structure MetaRun (V S : Type) where
  fn : S
  calls : List (Call V)

namespace internal

/-- The overload `call_fn<Index>(val, fld, fn)` (lines 54 to 62). `T` is the type of `val`.  The
`if constexpr` selects on the trait of line 57; the call of the selected branch, with the
arguments it is actually given, has then to be well-formed. -/
def call_fn {V S : Type} (_Index : Nat) (T : CType) (fld : field V) (fn : Visitor V S)
    (r : Run V S) : Except Reject (Run V S) :=
  if T.cls ≠ fld.Class then
    .error .bad_member_pointer
  else if fn.invocable_name_value_field fld.args = true then
    if fn.accepts_name_value_field T fld.args = true then
      let out := fn.call_name_value_field r.fn fld.name (r.val fld.pointerToField) fld
      .ok ⟨Function.update r.val fld.pointerToField out.2, out.1,
        r.calls ++ [.name_value_field fld.name (r.val fld.pointerToField) fld]⟩
    else
      .error .not_invocable
  else if fn.accepts_name_value T fld.FieldType = true then
    let out := fn.call_name_value r.fn fld.name (r.val fld.pointerToField)
    .ok ⟨Function.update r.val fld.pointerToField out.2, out.1,
      r.calls ++ [.name_value fld.name (r.val fld.pointerToField)]⟩
  else
    .error .not_invocable

/-- The overload `call_fn<Index>(fld, fn)` (lines 63 to 69): selection on the trait of line 65,
then the selected call has to be well-formed. -/
def call_fn_meta {V S : Type} (_Index : Nat) (fld : field V) (fn : Visitor V S)
    (r : MetaRun V S) : Except Reject (MetaRun V S) :=
  if fn.invocable_name_field fld.args = true then
    if fn.accepts_name_field fld.args = true then
      .ok ⟨fn.call_name_field r.fn fld.name fld, r.calls ++ [.name_field fld.name fld]⟩
    else
      .error .not_invocable
  else if fn.invocable_name = true then
    .ok ⟨fn.call_name r.fn fld.name, r.calls ++ [.name_only fld.name]⟩
  else
    .error .not_invocable

/-- Deduction of `Class` and `Attributes...` from the argument for the parameter
`const std::tuple<field<Class, FieldType, Attributes...>...>&`.  The outer expansion expands the
pack `FieldType` only: `Class` and the whole pack `Attributes...` are deduced from every element
and have to agree, and an empty tuple leaves `Class` without an argument. -/
def deduce_fields {V : Type} : List (field V) → Except Reject (String × List String)
  | [] => .error .cannot_deduce_Class
  | fld :: rest =>
    if rest.all (fun g => g.Class == fld.Class && g.kinds == fld.kinds) then
      .ok (fld.Class, fld.kinds)
    else
      .error .inconsistent_deduction

/-- The fold `(call_fn<Indices>(val, std::get<Indices>(fields), fn), ...)` over the comma
operator: one call per index, left to right. -/
def fold_call_fn {V S : Type} (T : CType) (fields : List (field V)) (fn : Visitor V S) :
    List Nat → Run V S → Except Reject (Run V S)
  | [], r => .ok r
  | i :: Indices, r =>
    match fields[i]? with
    | none => .error .index_out_of_range
    | some fld =>
      match call_fn i T fld fn r with
      | .ok r1 => fold_call_fn T fields fn Indices r1
      | .error e => .error e

/-- The fold `(call_fn<Indices>(std::get<Indices>(fields), fn), ...)`. -/
def fold_call_fn_meta {V S : Type} (fields : List (field V)) (fn : Visitor V S) :
    List Nat → MetaRun V S → Except Reject (MetaRun V S)
  | [], r => .ok r
  | i :: Indices, r =>
    match fields[i]? with
    | none => .error .index_out_of_range
    | some fld =>
      match call_fn_meta i fld fn r with
      | .ok r1 => fold_call_fn_meta fields fn Indices r1
      | .error e => .error e

/-- The overload `internal::for_each_field(val, fields, integer_sequence<Indices...>, fn)`
(lines 70 to 76). -/
def for_each_field {V S : Type} (T : CType) (r : Run V S) (fields : List (field V))
    (Indices : List Nat) (fn : Visitor V S) : Except Reject (Run V S) :=
  match deduce_fields fields with
  | .error e => .error e
  | .ok _ => fold_call_fn T fields fn Indices r

/-- The overload `internal::for_each_field<T>(fields, integer_sequence<Indices...>, fn)`
(lines 77 to 82). -/
def for_each_field_meta {V S : Type} (r : MetaRun V S) (fields : List (field V))
    (Indices : List Nat) (fn : Visitor V S) : Except Reject (MetaRun V S) :=
  match deduce_fields fields with
  | .error e => .error e
  | .ok _ => fold_call_fn_meta fields fn Indices r

end internal

/-- The entry point `for_each_field(val, fn)` (lines 87 to 91), with `T` the deduced type of the
forwarding reference; `std::make_index_sequence<N>` is `0, ..., N - 1`.  The visitor starts in
state `s` and has been invoked by nobody yet. -/
def for_each_field {V S : Type} (reg : Registry V) (T : CType) (val : Nat → V)
    (fn : Visitor V S) (s : S) : Except Reject (Run V S) :=
  match reflection_of reg T, reflection_num_fields reg T with
  | .ok fields, .ok n => internal.for_each_field T ⟨val, s, []⟩ fields (List.range n) fn
  | .error e, _ => .error e
  | _, .error e => .error e

/-- The entry point `for_each_field<T>(fn)` (lines 92 to 96). -/
def for_each_field_meta {V S : Type} (reg : Registry V) (T : CType) (fn : Visitor V S) (s : S) :
    Except Reject (MetaRun V S) :=
  match reflection_of reg T, reflection_num_fields reg T with
  | .ok fields, .ok n => internal.for_each_field_meta ⟨s, []⟩ fields (List.range n) fn
  | .error e, _ => .error e
  | _, .error e => .error e

/-! ## The enumeration as the specification words it

Second definitions, written from the text of the specification ("for each Field Descriptor in
the owning type's sequence, in declared order, invokes the visitor once, passing the field's
name and a mutable reference to that field's storage ... if the visitor also accepts the Field
Descriptor itself as a third argument, the engine passes it; otherwise it calls the two-argument
form"), to be compared with the embedding of the code above. -/

/-- The answer of the visitor to its invocation for `fld`, made in state `s` with a reference
to storage holding `v`: its new state and the value the storage holds afterwards. -/
def Visitor.answer {V S : Type} (fn : Visitor V S) (fld : field V) (s : S) (v : V) : S × V :=
  if fn.invocable_name_value_field fld.args = true then
    fn.call_name_value_field s fld.name v fld
  else
    fn.call_name_value s fld.name v

/-- The richest call shape the visitor accepts for `fld`, with value. -/
def Visitor.shape {V S : Type} (fn : Visitor V S) (fld : field V) (v : V) : Call V :=
  if fn.invocable_name_value_field fld.args = true then
    .name_value_field fld.name v fld
  else
    .name_value fld.name v

/-- One visit: the visitor is invoked for `fld` on the object of `r`. -/
def visit {V S : Type} (fn : Visitor V S) (r : Run V S) (fld : field V) : Run V S :=
  ⟨Function.update r.val fld.pointerToField (fn.answer fld r.fn (r.val fld.pointerToField)).2,
    (fn.answer fld r.fn (r.val fld.pointerToField)).1,
    r.calls ++ [fn.shape fld (r.val fld.pointerToField)]⟩

/-- The visits of a sequence, in declared order. -/
def visit_in_order {V S : Type} (fn : Visitor V S) (ds : List (field V)) (r : Run V S) :
    Run V S :=
  ds.foldl (visit fn) r

/-- The richest call shape the visitor accepts for `fld`, without value. -/
def Visitor.shape_meta {V S : Type} (fn : Visitor V S) (fld : field V) : Call V :=
  if fn.invocable_name_field fld.args = true then .name_field fld.name fld
  else .name_only fld.name

/-- One metadata-only visit. -/
def visit_meta {V S : Type} (fn : Visitor V S) (r : MetaRun V S) (fld : field V) : MetaRun V S :=
  ⟨if fn.invocable_name_field fld.args = true then fn.call_name_field r.fn fld.name fld
    else fn.call_name r.fn fld.name,
    r.calls ++ [fn.shape_meta fld]⟩

/-- The metadata-only visits of a sequence, in declared order. -/
def visit_in_order_meta {V S : Type} (fn : Visitor V S) (ds : List (field V))
    (r : MetaRun V S) : MetaRun V S :=
  ds.foldl (visit_meta fn) r

/-- The object obtained from `val` by the writes of the visitor alone: for each descriptor in
declared order, the storage it addresses receives the value the visitor leaves there. -/
def apply_writes {V S : Type} (fn : Visitor V S) : List (field V) → (Nat → V) → S → (Nat → V)
  | [], val, _ => val
  | fld :: rest, val, s =>
    apply_writes fn rest
      (Function.update val fld.pointerToField (fn.answer fld s (val fld.pointerToField)).2)
      (fn.answer fld s (val fld.pointerToField)).1

/-- The static requirements of the call `for_each_field(val, fn)` with `val` of type `T`, on a
sequence `ds`: the sequence is not empty, every descriptor is for the class of `val` and carries
the same attribute pack, and for every field the call that the trait of line 57 selects is
well-formed for `val`. -/
structure Instantiates {V S : Type} (T : CType) (ds : List (field V)) (fn : Visitor V S) :
    Prop where
  nonempty : ds ≠ []
  sameClass : ∀ d ∈ ds, d.Class = T.cls
  sameAttributes : ∀ d ∈ ds, ∀ e ∈ ds, d.kinds = e.kinds
  invocable : ∀ d ∈ ds,
    (fn.invocable_name_value_field d.args = true ∧
      fn.accepts_name_value_field T d.args = true) ∨
    (fn.invocable_name_value_field d.args = false ∧
      fn.accepts_name_value T d.FieldType = true)

/-- The static requirements of the call `for_each_field<T>(fn)` on a sequence `ds`: the sequence
is not empty, its descriptors are for one class and carry the same attribute pack, and for
every field the call that the trait of line 65 selects is well-formed. -/
structure InstantiatesMeta {V S : Type} (ds : List (field V)) (fn : Visitor V S) : Prop where
  nonempty : ds ≠ []
  sameClass : ∀ d ∈ ds, ∀ e ∈ ds, d.Class = e.Class
  sameAttributes : ∀ d ∈ ds, ∀ e ∈ ds, d.kinds = e.kinds
  invocable : ∀ d ∈ ds,
    (fn.invocable_name_field d.args = true ∧ fn.accepts_name_field d.args = true) ∨
    (fn.invocable_name_field d.args = false ∧ fn.invocable_name = true)

/-! ## The running example of the specification -/

/-- The class `Point` with `int x; int y;`: member designators 0 and 1. -/
def Point.reflection : List (field Int) :=
  [⟨"Point", "int", [], "x", 0⟩, ⟨"Point", "int", [], "y", 1⟩]

/-- A program in which `Point` is the only class that declares `reflection`. -/
def pointRegistry : Registry Int := fun c =>
  if c = "Point" then some Point.reflection else none

/-- The object `Point{x: 3, y: 4}`. -/
def p34 : Nat → Int := fun m => if m = 0 then 3 else if m = 1 then 4 else 0

/-- The type `Point&` that `for_each_field(p, fn)` deduces for an lvalue `p`. -/
def PointRef : CType := ⟨"Point", false, false, .lref⟩

/-- The type `Point`. -/
def PointT : CType := ⟨"Point", false, false, .value⟩

/-- A visitor with the overloads `(std::string_view, const int&)` and `(std::string_view)`: it
accepts no descriptor and writes nothing. -/
def plainVisitor : Visitor Int Unit where
  invocable := fun args =>
    match args with
    | [n] => n.isName
    | [n, v] => n.isName && v.type == .member "int" && !v.isVolatile
    | _ => false
  call_name_value_field := fun s _ v _ => (s, v)
  call_name_value := fun s _ v => (s, v)
  call_name_field := fun s _ _ => s
  call_name := fun s _ => s

/-- A class `Sample` with `int a; double b; int c;`: member designators 0, 1 and 2; every
descriptor carries one attribute of kind `unit`. -/
def Sample.reflection : List (field Int) :=
  [⟨"Sample", "int", [⟨"unit", 1⟩], "a", 0⟩, ⟨"Sample", "double", [⟨"unit", 2⟩], "b", 1⟩,
    ⟨"Sample", "int", [⟨"unit", 3⟩], "c", 2⟩]

/-- A program in which `Point` and `Sample` declare `reflection`. -/
def sampleRegistry : Registry Int := fun c =>
  if c = "Point" then some Point.reflection
  else if c = "Sample" then some Sample.reflection
  else none

/-- The type `Sample&`. -/
def SampleRef : CType := ⟨"Sample", false, false, .lref⟩

/-- The object `Sample{a: 5, b: 6, c: 7}`. -/
def s567 : Nat → Int := fun m => if m = 0 then 5 else if m = 1 then 6 else if m = 2 then 7 else 0

/-- A visitor that counts its invocations, with the overloads
`(std::string_view, int& v, const auto&)`, which writes ten times the value,
`(std::string_view, auto& v)`, which writes the value plus one,
`(std::string_view, const F&)` for the descriptor types `F` of `int` fields, and
`(std::string_view)`.  It accepts the descriptor for `int` fields only, and no const object. -/
def intVisitor : Visitor Int Nat where
  invocable := fun args =>
    match args with
    | [n] => n.isName
    | [n, x] => n.isName &&
        ((x.isMember && x.isLvalue && !x.isConst) || (x.isDescriptorOf "int" && !x.isVolatile))
    | [n, v, d] => n.isName &&
        (v.type == .member "int" && v.isLvalue && !v.isConst && !v.isVolatile) &&
        (d.isDescriptor && !d.isVolatile)
    | _ => false
  call_name_value_field := fun s _ v _ => (s + 1, 10 * v)
  call_name_value := fun s _ v => (s + 1, v + 1)
  call_name_field := fun s _ _ => s + 1
  call_name := fun s _ => s + 1

/-- A class `Mixed` with `int a; double b;`: the descriptor of `a` carries an attribute of kind
`unit`, the descriptor of `b` carries none. -/
def Mixed.reflection : List (field Int) :=
  [⟨"Mixed", "int", [⟨"unit", 1⟩], "a", 0⟩, ⟨"Mixed", "double", [], "b", 1⟩]

/-- A class `Bare` that declares `static constexpr std::tuple<> reflection`. -/
def Bare.reflection : List (field Int) := []

/-- A class `Alias` with `int x; int y;` that declares `x`, then `y`, then `x` again: the first
and the last descriptor have the same name and the same accessor. -/
def Alias.reflection : List (field Int) :=
  [⟨"Alias", "int", [], "x", 0⟩, ⟨"Alias", "int", [], "y", 1⟩, ⟨"Alias", "int", [], "x", 0⟩]

/-- A program in which `Mixed`, `Bare` and `Alias` declare `reflection`. -/
def edgeRegistry : Registry Int := fun c =>
  if c = "Mixed" then some Mixed.reflection
  else if c = "Bare" then some Bare.reflection
  else if c = "Alias" then some Alias.reflection
  else none

/-- The type `Mixed&`. -/
def MixedRef : CType := ⟨"Mixed", false, false, .lref⟩

/-- The type `Bare&`. -/
def BareRef : CType := ⟨"Bare", false, false, .lref⟩

/-- The type `Alias&`. -/
def AliasRef : CType := ⟨"Alias", false, false, .lref⟩

/-- The type `Unknown&` of a class that declares no `reflection`. -/
def UnknownRef : CType := ⟨"Unknown", false, false, .lref⟩

/-- The object `{2, 3}` of a class with two `int` members. -/
def v23 : Nat → Int := fun m => if m = 0 then 2 else if m = 1 then 3 else 0

/-- A visitor `[](std::string_view, auto&&... rest)` that counts its invocations and writes ten
times the value it receives: it accepts every call of the engine on an object that is not
const. -/
def anyVisitor : Visitor Int Nat where
  invocable := fun args =>
    match args with
    | [] => false
    | n :: rest => n.isName && rest.all (fun a => !(a.isMember && a.isConst))
  call_name_value_field := fun s _ v _ => (s + 1, 10 * v)
  call_name_value := fun s _ v => (s + 1, 10 * v)
  call_name_field := fun s _ _ => s + 1
  call_name := fun s _ => s + 1

/-- A visitor with the overloads `(std::string_view, const int&, const auto&)`,
`(std::string_view, const int&)` and `(std::string_view, const F&)` for the descriptor types
`F` of `int` fields: it can be called for `int` fields only, and writes nothing. -/
def intOnlyVisitor : Visitor Int Nat where
  invocable := fun args =>
    match args with
    | [n, x] => n.isName &&
        ((x.type == .member "int" && !x.isVolatile) || (x.isDescriptorOf "int" && !x.isVolatile))
    | [n, v, d] => n.isName && (v.type == .member "int" && !v.isVolatile) &&
        (d.isDescriptor && !d.isVolatile)
    | _ => false
  call_name_value_field := fun s _ v _ => (s + 1, v)
  call_name_value := fun s _ v => (s + 1, v)
  call_name_field := fun s _ _ => s + 1
  call_name := fun s _ => s + 1

/-- A visitor with the overloads `(std::string_view, auto&, auto&)`, `(std::string_view, auto&)`
and `(std::string_view)`, which writes nothing: every argument after the name has to be an
lvalue, of any type and constness. -/
def lvalueVisitor : Visitor Int Nat where
  invocable := fun args =>
    match args with
    | [n] => n.isName
    | [n, x] => n.isName && x.isLvalue
    | [n, x, y] => n.isName && x.isLvalue && y.isLvalue
    | _ => false
  call_name_value_field := fun s _ v _ => (s + 1, v)
  call_name_value := fun s _ v => (s + 1, v)
  call_name_field := fun s _ _ => s + 1
  call_name := fun s _ => s + 1

/-- A visitor with the overloads `(std::string_view, int&, F&&)`, `(std::string_view, int&)`,
`(std::string_view, F&&)` and `(std::string_view)`, for descriptor types `F`, which writes
nothing: it takes a descriptor as a non-const rvalue only. -/
def rvalueVisitor : Visitor Int Nat where
  invocable := fun args =>
    match args with
    | [n] => n.isName
    | [n, x] => n.isName &&
        ((x.type == .member "int" && x.isLvalue && !x.isConst && !x.isVolatile) ||
          (x.isDescriptor && !x.isLvalue && !x.isConst && !x.isVolatile))
    | [n, v, d] => n.isName &&
        (v.type == .member "int" && v.isLvalue && !v.isConst && !v.isVolatile) &&
        (d.isDescriptor && !d.isLvalue && !d.isConst && !d.isVolatile)
    | _ => false
  call_name_value_field := fun s _ v _ => (s + 1, v)
  call_name_value := fun s _ v => (s + 1, v)
  call_name_field := fun s _ _ => s + 1
  call_name := fun s _ => s + 1

/-- A visitor `[](std::string_view, const auto&...)` that writes nothing: it accepts every call
of the engine, on const objects too. -/
def readVisitor : Visitor Int Nat where
  invocable := fun args =>
    match args with
    | [] => false
    | n :: rest => n.isName && rest.all (fun a => !a.isVolatile)
  call_name_value_field := fun s _ v _ => (s + 1, v)
  call_name_value := fun s _ v => (s + 1, v)
  call_name_field := fun s _ _ => s + 1
  call_name := fun s _ => s + 1

/-- The type `const Sample&` that `for_each_field(s, fn)` deduces for a const lvalue `s`. -/
def ConstSampleRef : CType := ⟨"Sample", true, false, .lref⟩

/-! ## Field descriptors -/

/-- Lookup of a base subobject in a pack that names no class twice. -/
theorem find_kind_of_mem {V : Type} (attr : List (Attr V)) (a : Attr V)
    (hd : (attr.map Attr.kind).Nodup) (ha : a ∈ attr) :
    attr.find? (fun b => b.kind == a.kind) = some a := by
  induction attr with
  | nil => cases ha
  | cons b rest ih =>
    simp only [List.map_cons, List.nodup_cons, List.mem_map, not_exists, not_and] at hd
    rcases List.mem_cons.mp ha with h | h
    · subst h
      simp
    · have hne : b.kind ≠ a.kind := fun e => hd.1 a h e.symm
      rw [List.find?_cons_of_neg _ (by simpa using hne)]
      exact ih hd.2 h

/-- **C8.** A descriptor constructed from a name `n`, an accessor `p` and attribute values of
pairwise distinct kinds exists, has name `n` and accessor `p`, holds exactly the given values,
and retrieving the kind of any of them yields that value, at whatever position it was given
(there may be no attribute at all). -/
theorem field_ctor_retrieves_attributes {V : Type} (Class FieldType n : String) (p : Nat)
    (attr : List (Attr V)) (hd : (attr.map Attr.kind).Nodup) :
    ∃ d, field.ctor Class FieldType n p attr = .ok d ∧ d.name = n ∧ d.pointerToField = p ∧
      d.kinds = attr.map Attr.kind ∧
      (∀ j (hj : j < attr.length), d.attribute (attr[j]).kind = some (attr[j]).value) ∧
      (∀ k, (∀ a ∈ attr, a.kind ≠ k) → d.attribute k = none) := by
  refine ⟨⟨Class, FieldType, attr, n, p⟩, by simp [field.ctor, hd], rfl, rfl, rfl, ?_, ?_⟩
  · intro j hj
    simp [field.attribute, find_kind_of_mem attr attr[j] hd (List.getElem_mem _)]
  · intro k hk
    simp only [field.attribute, Option.map_eq_none']
    rw [List.find?_eq_none]
    intro a ha
    simpa using hk a ha

/-- Instance of C8: a descriptor with two attributes, and one with none. -/
theorem field_ctor_retrieves_attributes_witness :
    (∃ d, field.ctor "Point" "int" "x" 0 [⟨"unit", (7 : Int)⟩, ⟨"range", 9⟩] = .ok d ∧
      d.name = "x" ∧ d.pointerToField = 0 ∧
      d.kinds = [(⟨"unit", 7⟩ : Attr Int), ⟨"range", 9⟩].map Attr.kind ∧
      (∀ j (hj : j < [(⟨"unit", 7⟩ : Attr Int), ⟨"range", 9⟩].length),
        d.attribute ([(⟨"unit", 7⟩ : Attr Int), ⟨"range", 9⟩][j]).kind
          = some ([(⟨"unit", 7⟩ : Attr Int), ⟨"range", 9⟩][j]).value) ∧
      (∀ k, (∀ a ∈ [(⟨"unit", 7⟩ : Attr Int), ⟨"range", 9⟩], a.kind ≠ k) →
        d.attribute k = none)) ∧
    (field.ctor "Point" "int" "x" 0 [⟨"unit", (7 : Int)⟩, ⟨"range", 9⟩]).map
      (fun d => (d.attribute "range", d.attribute "unit", d.attribute "other"))
      = .ok (some 9, some 7, none) :=
  ⟨field_ctor_retrieves_attributes "Point" "int" "x" 0 [⟨"unit", 7⟩, ⟨"range", 9⟩] (by decide),
    rfl⟩

/-! ## Registry: qualifier normalization -/

/-- Closed form of the lookup: a type that is both `const` and `volatile` (behind a reference or
not) is rejected, every other form reads the member `reflection` of the class. -/
theorem reflection_of_eq {V : Type} (reg : Registry V) (T : CType) :
    reflection_of reg T =
      if T.isConst = true ∧ T.isVolatile = true then .error .ambiguous_specialization
      else match reg T.cls with
        | some fields => .ok fields
        | none => .error .no_reflection_member := by
  obtain ⟨c, k, v, rk⟩ := T
  cases k <;> cases v <;> cases rk <;>
    simp [reflection_of, reflection_of_aux, reflection_of_primary, matching,
      PartialSpec.deduce]

/-- The bound of `reflection_of` is never the reason of a rejection. -/
theorem reflection_of_ne_out_of_fuel {V : Type} (reg : Registry V) (T : CType) :
    reflection_of reg T ≠ .error .out_of_fuel := by
  rw [reflection_of_eq]
  split
  · simp
  · split <;> simp

/-- Lookup for a registered class through a form that is not `const volatile`. -/
theorem reflection_of_registered {V : Type} (reg : Registry V) (T : CType) (ds : List (field V))
    (hreg : reg T.cls = some ds) (hcv : ¬ (T.isConst = true ∧ T.isVolatile = true)) :
    reflection_of reg T = .ok ds := by
  rw [reflection_of_eq, if_neg hcv, hreg]

/-- The field count of a lookup that succeeds. -/
theorem reflection_num_fields_of_ok {V : Type} (reg : Registry V) (T : CType)
    (ds : List (field V)) (h : reflection_of reg T = .ok ds) :
    reflection_num_fields reg T = .ok ds.length := by
  simp [reflection_num_fields, h, Except.map]

/-- **C5.** For a class `c` that declares the sequence `ds`, the lookups `reflection_of<c>`,
`reflection_of<const c>`, `reflection_of<c&>` and `reflection_of<c&&>` all succeed and all yield
`ds` itself.  The unqualified lookup is the primary template; each of the other three is
resolved by the one partial specialization written for it (lines 37, 41, 43), which deduces
`T = c` and refers to `reflection_of<c>`; the primary template alone has no lookup for the two
reference forms. -/
theorem reflection_of_const_and_references {V : Type} (reg : Registry V) (c : String)
    (ds : List (field V)) (hreg : reg c = some ds) :
    reflection_of reg ⟨c, false, false, .value⟩ = .ok ds ∧
    reflection_of reg ⟨c, true, false, .value⟩ = .ok ds ∧
    reflection_of reg ⟨c, false, false, .lref⟩ = .ok ds ∧
    reflection_of reg ⟨c, false, false, .rref⟩ = .ok ds ∧
    matching ⟨c, false, false, .value⟩ = [] ∧
    reflection_of_primary reg ⟨c, false, false, .value⟩ = .ok ds ∧
    PartialSpec.constT.deduce ⟨c, true, false, .value⟩ = some ⟨c, false, false, .value⟩ ∧
    matching ⟨c, true, false, .value⟩ = [⟨c, false, false, .value⟩] ∧
    PartialSpec.lrefT.deduce ⟨c, false, false, .lref⟩ = some ⟨c, false, false, .value⟩ ∧
    matching ⟨c, false, false, .lref⟩ = [⟨c, false, false, .value⟩] ∧
    PartialSpec.rrefT.deduce ⟨c, false, false, .rref⟩ = some ⟨c, false, false, .value⟩ ∧
    matching ⟨c, false, false, .rref⟩ = [⟨c, false, false, .value⟩] ∧
    reflection_of_primary reg ⟨c, false, false, .lref⟩ = .error .not_a_class ∧
    reflection_of_primary reg ⟨c, false, false, .rref⟩ = .error .not_a_class := by
  refine ⟨reflection_of_registered reg _ ds hreg (by simp),
    reflection_of_registered reg _ ds hreg (by simp),
    reflection_of_registered reg _ ds hreg (by simp),
    reflection_of_registered reg _ ds hreg (by simp), ?_, ?_, ?_, ?_, ?_, ?_, ?_, ?_, ?_, ?_⟩ <;>
    simp [matching, PartialSpec.deduce, reflection_of_primary, hreg]

/-- Instance of C5 at `Point`. -/
theorem reflection_of_const_and_references_witness :
    reflection_of pointRegistry ⟨"Point", false, false, .value⟩ = .ok Point.reflection ∧
    reflection_of pointRegistry ⟨"Point", true, false, .value⟩ = .ok Point.reflection ∧
    reflection_of pointRegistry ⟨"Point", false, false, .lref⟩ = .ok Point.reflection ∧
    reflection_of pointRegistry ⟨"Point", false, false, .rref⟩ = .ok Point.reflection ∧
    matching ⟨"Point", false, false, .value⟩ = [] ∧
    reflection_of_primary pointRegistry ⟨"Point", false, false, .value⟩
      = .ok Point.reflection ∧
    PartialSpec.constT.deduce ⟨"Point", true, false, .value⟩
      = some ⟨"Point", false, false, .value⟩ ∧
    matching ⟨"Point", true, false, .value⟩ = [⟨"Point", false, false, .value⟩] ∧
    PartialSpec.lrefT.deduce ⟨"Point", false, false, .lref⟩
      = some ⟨"Point", false, false, .value⟩ ∧
    matching ⟨"Point", false, false, .lref⟩ = [⟨"Point", false, false, .value⟩] ∧
    PartialSpec.rrefT.deduce ⟨"Point", false, false, .rref⟩
      = some ⟨"Point", false, false, .value⟩ ∧
    matching ⟨"Point", false, false, .rref⟩ = [⟨"Point", false, false, .value⟩] ∧
    reflection_of_primary pointRegistry ⟨"Point", false, false, .lref⟩ = .error .not_a_class ∧
    reflection_of_primary pointRegistry ⟨"Point", false, false, .rref⟩
      = .error .not_a_class :=
  reflection_of_const_and_references pointRegistry "Point" Point.reflection rfl

/-- **C6 (the code departs from the claim).** Whatever the program and the class, the lookup
through `const volatile c`, `const volatile c&` or `const volatile c&&` is rejected as an
ambiguous choice between the specializations for `const T` and for `volatile T`; in particular
this is so for the registered class `Point`, whose unqualified lookup yields its sequence. -/
theorem reflection_of_const_volatile_rejected :
    (∀ (V : Type) (reg : Registry V) (c : String) (rk : RefKind),
      reflection_of reg ⟨c, true, true, rk⟩ = .error .ambiguous_specialization) ∧
    reflection_of pointRegistry ⟨"Point", false, false, .value⟩ = .ok Point.reflection ∧
    reflection_of pointRegistry ⟨"Point", true, true, .value⟩
      = .error .ambiguous_specialization := by
  refine ⟨?_, rfl, rfl⟩
  intro V reg c rk
  rw [reflection_of_eq]
  simp

/-- **C9.** For a class `c` that declares a sequence `ds` of `N` descriptors,
`reflection_num_fields` of `c`, `const c`, `volatile c`, `c&` and `c&&` is `N`, the length of the
sequence `reflection_of<c>` yields.  For each qualified form the count is that of the lookup,
which the partial specialization written for the form (lines 37, 39, 41, 43) resolves with
`T = c`; the primary template alone has no lookup for the two reference forms. -/
theorem reflection_num_fields_eq_length {V : Type} (reg : Registry V) (c : String)
    (ds : List (field V)) (hreg : reg c = some ds) :
    reflection_of reg ⟨c, false, false, .value⟩ = .ok ds ∧
    reflection_num_fields reg ⟨c, false, false, .value⟩ = .ok ds.length ∧
    reflection_num_fields reg ⟨c, true, false, .value⟩ = .ok ds.length ∧
    reflection_num_fields reg ⟨c, false, true, .value⟩ = .ok ds.length ∧
    reflection_num_fields reg ⟨c, false, false, .lref⟩ = .ok ds.length ∧
    reflection_num_fields reg ⟨c, false, false, .rref⟩ = .ok ds.length ∧
    (∀ T : CType, reflection_num_fields reg T = (reflection_of reg T).map List.length) ∧
    matching ⟨c, true, false, .value⟩ = [⟨c, false, false, .value⟩] ∧
    PartialSpec.constT.deduce ⟨c, true, false, .value⟩ = some ⟨c, false, false, .value⟩ ∧
    matching ⟨c, false, true, .value⟩ = [⟨c, false, false, .value⟩] ∧
    PartialSpec.volatileT.deduce ⟨c, false, true, .value⟩ = some ⟨c, false, false, .value⟩ ∧
    matching ⟨c, false, false, .lref⟩ = [⟨c, false, false, .value⟩] ∧
    PartialSpec.lrefT.deduce ⟨c, false, false, .lref⟩ = some ⟨c, false, false, .value⟩ ∧
    matching ⟨c, false, false, .rref⟩ = [⟨c, false, false, .value⟩] ∧
    PartialSpec.rrefT.deduce ⟨c, false, false, .rref⟩ = some ⟨c, false, false, .value⟩ ∧
    reflection_of_primary reg ⟨c, false, false, .lref⟩ = .error .not_a_class ∧
    reflection_of_primary reg ⟨c, false, false, .rref⟩ = .error .not_a_class := by
  refine ⟨reflection_of_registered reg _ ds hreg (by simp),
    reflection_num_fields_of_ok reg _ ds (reflection_of_registered reg _ ds hreg (by simp)),
    reflection_num_fields_of_ok reg _ ds (reflection_of_registered reg _ ds hreg (by simp)),
    reflection_num_fields_of_ok reg _ ds (reflection_of_registered reg _ ds hreg (by simp)),
    reflection_num_fields_of_ok reg _ ds (reflection_of_registered reg _ ds hreg (by simp)),
    reflection_num_fields_of_ok reg _ ds (reflection_of_registered reg _ ds hreg (by simp)),
    fun _ => rfl, ?_, ?_, ?_, ?_, ?_, ?_, ?_, ?_, ?_, ?_⟩ <;>
    simp [matching, PartialSpec.deduce, reflection_of_primary]

/-- Instance of C9 at `Point`, which declares two descriptors. -/
theorem reflection_num_fields_eq_length_witness :
    reflection_of pointRegistry ⟨"Point", false, false, .value⟩ = .ok Point.reflection ∧
    reflection_num_fields pointRegistry ⟨"Point", false, false, .value⟩ = .ok 2 ∧
    reflection_num_fields pointRegistry ⟨"Point", true, false, .value⟩ = .ok 2 ∧
    reflection_num_fields pointRegistry ⟨"Point", false, true, .value⟩ = .ok 2 ∧
    reflection_num_fields pointRegistry ⟨"Point", false, false, .lref⟩ = .ok 2 ∧
    reflection_num_fields pointRegistry ⟨"Point", false, false, .rref⟩ = .ok 2 ∧
    (∀ T : CType, reflection_num_fields pointRegistry T
      = (reflection_of pointRegistry T).map List.length) ∧
    matching ⟨"Point", true, false, .value⟩ = [⟨"Point", false, false, .value⟩] ∧
    PartialSpec.constT.deduce ⟨"Point", true, false, .value⟩
      = some ⟨"Point", false, false, .value⟩ ∧
    matching ⟨"Point", false, true, .value⟩ = [⟨"Point", false, false, .value⟩] ∧
    PartialSpec.volatileT.deduce ⟨"Point", false, true, .value⟩
      = some ⟨"Point", false, false, .value⟩ ∧
    matching ⟨"Point", false, false, .lref⟩ = [⟨"Point", false, false, .value⟩] ∧
    PartialSpec.lrefT.deduce ⟨"Point", false, false, .lref⟩
      = some ⟨"Point", false, false, .value⟩ ∧
    matching ⟨"Point", false, false, .rref⟩ = [⟨"Point", false, false, .value⟩] ∧
    PartialSpec.rrefT.deduce ⟨"Point", false, false, .rref⟩
      = some ⟨"Point", false, false, .value⟩ ∧
    reflection_of_primary pointRegistry ⟨"Point", false, false, .lref⟩ = .error .not_a_class ∧
    reflection_of_primary pointRegistry ⟨"Point", false, false, .rref⟩
      = .error .not_a_class :=
  reflection_num_fields_eq_length pointRegistry "Point" Point.reflection rfl

/-! ## Engine: the unrolled calls are the visits in declared order -/

/-- Deduction succeeds on a sequence that is not empty and is uniform in class and pack. -/
theorem deduce_fields_ok {V : Type} (ds : List (field V)) (hne : ds ≠ [])
    (hc : ∀ d ∈ ds, ∀ e ∈ ds, d.Class = e.Class)
    (hk : ∀ d ∈ ds, ∀ e ∈ ds, d.kinds = e.kinds) :
    ∃ x, internal.deduce_fields ds = .ok x := by
  cases ds with
  | nil => exact absurd rfl hne
  | cons d rest =>
    refine ⟨(d.Class, d.kinds), ?_⟩
    have hall : rest.all (fun g => g.Class == d.Class && g.kinds == d.kinds) = true := by
      rw [List.all_eq_true]
      intro g hg
      have h1 := hc g (List.mem_cons_of_mem _ hg) d (List.mem_cons_self _ _)
      have h2 := hk g (List.mem_cons_of_mem _ hg) d (List.mem_cons_self _ _)
      simp [h1, h2]
    simp [internal.deduce_fields, hall]

/-- A call of `call_fn` whose static requirements hold is one visit. -/
theorem call_fn_eq_visit {V S : Type} (i : Nat) (T : CType) (fld : field V) (fn : Visitor V S)
    (r : Run V S) (hc : fld.Class = T.cls)
    (hi : (fn.invocable_name_value_field fld.args = true ∧
        fn.accepts_name_value_field T fld.args = true) ∨
      (fn.invocable_name_value_field fld.args = false ∧
        fn.accepts_name_value T fld.FieldType = true)) :
    internal.call_fn i T fld fn r = .ok (visit fn r fld) := by
  unfold internal.call_fn visit Visitor.answer Visitor.shape
  rw [if_neg (by simp [hc])]
  rcases hi with ⟨h3, ha⟩ | ⟨h3, ha⟩
  · simp [h3, ha]
  · simp [h3, ha]

/-- A call of the metadata `call_fn` whose static requirements hold is one metadata visit. -/
theorem call_fn_meta_eq_visit {V S : Type} (i : Nat) (fld : field V) (fn : Visitor V S)
    (r : MetaRun V S)
    (hi : (fn.invocable_name_field fld.args = true ∧ fn.accepts_name_field fld.args = true) ∨
      (fn.invocable_name_field fld.args = false ∧ fn.invocable_name = true)) :
    internal.call_fn_meta i fld fn r = .ok (visit_meta fn r fld) := by
  unfold internal.call_fn_meta visit_meta Visitor.shape_meta
  rcases hi with ⟨h3, ha⟩ | ⟨h3, ha⟩
  · simp [h3, ha]
  · simp [h3, ha]

/-- The fold over a concatenation of index lists. -/
theorem fold_call_fn_append {V S : Type} (T : CType) (fields : List (field V))
    (fn : Visitor V S) (is js : List Nat) (r : Run V S) :
    internal.fold_call_fn T fields fn (is ++ js) r =
      match internal.fold_call_fn T fields fn is r with
      | .ok r1 => internal.fold_call_fn T fields fn js r1
      | .error e => .error e := by
  induction is generalizing r with
  | nil => rfl
  | cons i rest ih =>
    simp only [List.cons_append, internal.fold_call_fn]
    cases fields[i]? with
    | none => rfl
    | some fld =>
      simp only []
      cases internal.call_fn i T fld fn r with
      | error e => rfl
      | ok r1 => exact ih r1

/-- The metadata fold over a concatenation of index lists. -/
theorem fold_call_fn_meta_append {V S : Type} (fields : List (field V))
    (fn : Visitor V S) (is js : List Nat) (r : MetaRun V S) :
    internal.fold_call_fn_meta fields fn (is ++ js) r =
      match internal.fold_call_fn_meta fields fn is r with
      | .ok r1 => internal.fold_call_fn_meta fields fn js r1
      | .error e => .error e := by
  induction is generalizing r with
  | nil => rfl
  | cons i rest ih =>
    simp only [List.cons_append, internal.fold_call_fn_meta]
    cases fields[i]? with
    | none => rfl
    | some fld =>
      simp only []
      cases internal.call_fn_meta i fld fn r with
      | error e => rfl
      | ok r1 => exact ih r1

/-- The visits of the first `k + 1` descriptors. -/
theorem visit_in_order_take_succ {V S : Type} (fn : Visitor V S) (ds : List (field V))
    (r : Run V S) (k : Nat) (hk : k < ds.length) :
    visit_in_order fn (ds.take (k + 1)) r = visit fn (visit_in_order fn (ds.take k) r) ds[k] := by
  unfold visit_in_order
  rw [List.take_succ, List.getElem?_eq_getElem hk, List.foldl_append]
  rfl

/-- The metadata visits of the first `k + 1` descriptors. -/
theorem visit_in_order_meta_take_succ {V S : Type} (fn : Visitor V S) (ds : List (field V))
    (r : MetaRun V S) (k : Nat) (hk : k < ds.length) :
    visit_in_order_meta fn (ds.take (k + 1)) r
      = visit_meta fn (visit_in_order_meta fn (ds.take k) r) ds[k] := by
  unfold visit_in_order_meta
  rw [List.take_succ, List.getElem?_eq_getElem hk, List.foldl_append]
  rfl

/-- The calls for the indices `0, ..., k - 1` are the visits of the first `k` descriptors. -/
theorem fold_call_fn_range {V S : Type} (T : CType) (ds : List (field V)) (fn : Visitor V S)
    (r : Run V S) (hc : ∀ d ∈ ds, d.Class = T.cls)
    (hi : ∀ d ∈ ds, (fn.invocable_name_value_field d.args = true ∧
        fn.accepts_name_value_field T d.args = true) ∨
      (fn.invocable_name_value_field d.args = false ∧
        fn.accepts_name_value T d.FieldType = true))
    (k : Nat) (hk : k ≤ ds.length) :
    internal.fold_call_fn T ds fn (List.range k) r = .ok (visit_in_order fn (ds.take k) r) := by
  induction k with
  | zero => simp [internal.fold_call_fn, visit_in_order]
  | succ k ih =>
    have hlt : k < ds.length := hk
    rw [List.range_succ, fold_call_fn_append, ih (Nat.le_of_lt hlt)]
    simp only [internal.fold_call_fn, List.getElem?_eq_getElem hlt]
    rw [call_fn_eq_visit k T ds[k] fn _ (hc _ (List.getElem_mem _)) (hi _ (List.getElem_mem _)),
      visit_in_order_take_succ fn ds r k hlt]

/-- The metadata calls for the indices `0, ..., k - 1` are the metadata visits of the first `k`
descriptors. -/
theorem fold_call_fn_meta_range {V S : Type} (ds : List (field V)) (fn : Visitor V S)
    (r : MetaRun V S)
    (hi : ∀ d ∈ ds,
      (fn.invocable_name_field d.args = true ∧ fn.accepts_name_field d.args = true) ∨
      (fn.invocable_name_field d.args = false ∧ fn.invocable_name = true))
    (k : Nat) (hk : k ≤ ds.length) :
    internal.fold_call_fn_meta ds fn (List.range k) r
      = .ok (visit_in_order_meta fn (ds.take k) r) := by
  induction k with
  | zero => simp [internal.fold_call_fn_meta, visit_in_order_meta]
  | succ k ih =>
    have hlt : k < ds.length := hk
    rw [List.range_succ, fold_call_fn_meta_append, ih (Nat.le_of_lt hlt)]
    simp only [internal.fold_call_fn_meta, List.getElem?_eq_getElem hlt]
    rw [call_fn_meta_eq_visit k ds[k] fn _ (hi _ (List.getElem_mem _)),
      visit_in_order_meta_take_succ fn ds r k hlt]

/-- The enumeration restricted to the first `k` indices, when the call instantiates. -/
theorem internal_for_each_field_first_indices {V S : Type} (T : CType) (ds : List (field V))
    (fn : Visitor V S) (r : Run V S) (h : Instantiates T ds fn) (k : Nat) (hk : k ≤ ds.length) :
    internal.for_each_field T r ds (List.range k) fn
      = .ok (visit_in_order fn (ds.take k) r) := by
  obtain ⟨x, hx⟩ := deduce_fields_ok ds h.nonempty
    (fun d hd e he => (h.sameClass d hd).trans (h.sameClass e he).symm) h.sameAttributes
  simp only [internal.for_each_field, hx]
  exact fold_call_fn_range T ds fn r h.sameClass h.invocable k hk

/-- The metadata enumeration restricted to the first `k` indices, when the call instantiates. -/
theorem internal_for_each_field_meta_first_indices {V S : Type} (ds : List (field V))
    (fn : Visitor V S) (r : MetaRun V S) (h : InstantiatesMeta ds fn) (k : Nat)
    (hk : k ≤ ds.length) :
    internal.for_each_field_meta r ds (List.range k) fn
      = .ok (visit_in_order_meta fn (ds.take k) r) := by
  obtain ⟨x, hx⟩ := deduce_fields_ok ds h.nonempty h.sameClass h.sameAttributes
  simp only [internal.for_each_field_meta, hx]
  exact fold_call_fn_meta_range ds fn r h.invocable k hk

/-- The entry point with value, when the lookup succeeds and the call instantiates. -/
theorem for_each_field_eq_visit_in_order {V S : Type} (reg : Registry V) (T : CType)
    (ds : List (field V)) (val : Nat → V) (fn : Visitor V S) (s : S)
    (hreg : reflection_of reg T = .ok ds) (h : Instantiates T ds fn) :
    for_each_field reg T val fn s = .ok (visit_in_order fn ds ⟨val, s, []⟩) := by
  simp only [for_each_field, hreg, reflection_num_fields_of_ok reg T ds hreg]
  rw [internal_for_each_field_first_indices T ds fn _ h ds.length (Nat.le_refl _), List.take_length]

/-- The metadata-only entry point, when the lookup succeeds and the call instantiates. -/
theorem for_each_field_meta_eq_visit_in_order {V S : Type} (reg : Registry V) (T : CType)
    (ds : List (field V)) (fn : Visitor V S) (s : S)
    (hreg : reflection_of reg T = .ok ds) (h : InstantiatesMeta ds fn) :
    for_each_field_meta reg T fn s = .ok (visit_in_order_meta fn ds ⟨s, []⟩) := by
  simp only [for_each_field_meta, hreg, reflection_num_fields_of_ok reg T ds hreg]
  rw [internal_for_each_field_meta_first_indices ds fn _ h ds.length (Nat.le_refl _), List.take_length]

/-! ## Engine: the static requirements are exactly those of acceptance -/

/-- Deduction succeeds only on a sequence that is not empty and is uniform in class and pack. -/
theorem deduce_fields_uniform {V : Type} (ds : List (field V)) (x : String × List String)
    (hx : internal.deduce_fields ds = .ok x) :
    ds ≠ [] ∧ (∀ d ∈ ds, ∀ e ∈ ds, d.Class = e.Class) ∧
      (∀ d ∈ ds, ∀ e ∈ ds, d.kinds = e.kinds) := by
  cases ds with
  | nil => simp [internal.deduce_fields] at hx
  | cons a rest =>
    simp only [internal.deduce_fields] at hx
    split at hx
    · rename_i hall
      rw [List.all_eq_true] at hall
      have key : ∀ d ∈ a :: rest, d.Class = a.Class ∧ d.kinds = a.kinds := by
        intro d hd
        rcases List.mem_cons.mp hd with h | h
        · subst h
          exact ⟨rfl, rfl⟩
        · simpa using hall d h
      refine ⟨by simp, ?_, ?_⟩
      · intro d hd e he
        rw [(key d hd).1, (key e he).1]
      · intro d hd e he
        rw [(key d hd).2, (key e he).2]
    · cases hx

/-- A call of `call_fn` is well-formed only if its static requirements hold. -/
theorem call_fn_ok_requires {V S : Type} (i : Nat) (T : CType) (fld : field V)
    (fn : Visitor V S) (r r1 : Run V S) (hok : internal.call_fn i T fld fn r = .ok r1) :
    fld.Class = T.cls ∧ ((fn.invocable_name_value_field fld.args = true ∧
        fn.accepts_name_value_field T fld.args = true) ∨
      (fn.invocable_name_value_field fld.args = false ∧
        fn.accepts_name_value T fld.FieldType = true)) := by
  unfold internal.call_fn at hok
  split at hok
  · cases hok
  · rename_i hc
    refine ⟨(not_not.mp hc).symm, ?_⟩
    split at hok
    · rename_i h3
      split at hok
      · rename_i ha
        exact Or.inl ⟨h3, ha⟩
      · cases hok
    · rename_i h3
      split at hok
      · rename_i h2
        exact Or.inr ⟨by simpa using h3, h2⟩
      · cases hok

/-- A call of the metadata `call_fn` is well-formed only if the selected call is. -/
theorem call_fn_meta_ok_requires {V S : Type} (i : Nat) (fld : field V)
    (fn : Visitor V S) (r r1 : MetaRun V S) (hok : internal.call_fn_meta i fld fn r = .ok r1) :
    (fn.invocable_name_field fld.args = true ∧ fn.accepts_name_field fld.args = true) ∨
      (fn.invocable_name_field fld.args = false ∧ fn.invocable_name = true) := by
  unfold internal.call_fn_meta at hok
  split at hok
  · rename_i h3
    split at hok
    · rename_i ha
      exact Or.inl ⟨h3, ha⟩
    · cases hok
  · rename_i h3
    split at hok
    · rename_i h2
      exact Or.inr ⟨by simpa using h3, h2⟩
    · cases hok

/-- A fold that is well-formed has a well-formed call at each of its indices. -/
theorem fold_call_fn_ok_requires {V S : Type} (T : CType) (fields : List (field V))
    (fn : Visitor V S) (is : List Nat) (r r1 : Run V S)
    (hok : internal.fold_call_fn T fields fn is r = .ok r1) :
    ∀ i ∈ is, ∃ fld, fields[i]? = some fld ∧ fld.Class = T.cls ∧
      ((fn.invocable_name_value_field fld.args = true ∧
          fn.accepts_name_value_field T fld.args = true) ∨
        (fn.invocable_name_value_field fld.args = false ∧
          fn.accepts_name_value T fld.FieldType = true)) := by
  induction is generalizing r with
  | nil => simp
  | cons j rest ih =>
    simp only [internal.fold_call_fn] at hok
    cases hf : fields[j]? with
    | none => simp [hf] at hok
    | some fld =>
      simp only [hf] at hok
      cases hc : internal.call_fn j T fld fn r with
      | error e => simp [hc] at hok
      | ok r2 =>
        simp only [hc] at hok
        intro i hi
        rcases List.mem_cons.mp hi with h | h
        · subst h
          exact ⟨fld, hf, call_fn_ok_requires i T fld fn r r2 hc⟩
        · exact ih r2 hok i h

/-- A metadata fold that is well-formed has a well-formed call at each of its indices. -/
theorem fold_call_fn_meta_ok_requires {V S : Type} (fields : List (field V))
    (fn : Visitor V S) (is : List Nat) (r r1 : MetaRun V S)
    (hok : internal.fold_call_fn_meta fields fn is r = .ok r1) :
    ∀ i ∈ is, ∃ fld, fields[i]? = some fld ∧
      ((fn.invocable_name_field fld.args = true ∧ fn.accepts_name_field fld.args = true) ∨
        (fn.invocable_name_field fld.args = false ∧ fn.invocable_name = true)) := by
  induction is generalizing r with
  | nil => simp
  | cons j rest ih =>
    simp only [internal.fold_call_fn_meta] at hok
    cases hf : fields[j]? with
    | none => simp [hf] at hok
    | some fld =>
      simp only [hf] at hok
      cases hc : internal.call_fn_meta j fld fn r with
      | error e => simp [hc] at hok
      | ok r2 =>
        simp only [hc] at hok
        intro i hi
        rcases List.mem_cons.mp hi with h | h
        · subst h
          exact ⟨fld, hf, call_fn_meta_ok_requires i fld fn r r2 hc⟩
        · exact ih r2 hok i h

/-- The call `for_each_field(val, fn)` is accepted exactly when the lookup for `T` succeeds and
the static requirements `Instantiates` hold of the sequence it yields. -/
theorem for_each_field_ok_iff {V S : Type} (reg : Registry V) (T : CType) (val : Nat → V)
    (fn : Visitor V S) (s : S) :
    (∃ r, for_each_field reg T val fn s = .ok r) ↔
      ∃ ds, reflection_of reg T = .ok ds ∧ Instantiates T ds fn := by
  constructor
  · rintro ⟨r, hr⟩
    cases hreg : reflection_of reg T with
    | error e => simp [for_each_field, hreg] at hr
    | ok ds =>
      refine ⟨ds, rfl, ?_⟩
      simp only [for_each_field, hreg, reflection_num_fields_of_ok reg T ds hreg,
        internal.for_each_field] at hr
      cases hd : internal.deduce_fields ds with
      | error e => simp [hd] at hr
      | ok x =>
        simp only [hd] at hr
        obtain ⟨hne, -, hk⟩ := deduce_fields_uniform ds x hd
        have hall := fold_call_fn_ok_requires T ds fn _ _ r hr
        have hmem : ∀ d ∈ ds, d.Class = T.cls ∧
            ((fn.invocable_name_value_field d.args = true ∧
                fn.accepts_name_value_field T d.args = true) ∨
              (fn.invocable_name_value_field d.args = false ∧
                fn.accepts_name_value T d.FieldType = true)) := by
          intro d hd1
          obtain ⟨k, hk1, rfl⟩ := List.getElem_of_mem hd1
          obtain ⟨fld, hf, hrest⟩ := hall k (List.mem_range.mpr hk1)
          rw [List.getElem?_eq_getElem hk1] at hf
          cases hf
          exact hrest
        exact ⟨hne, fun d hd1 => (hmem d hd1).1, hk, fun d hd1 => (hmem d hd1).2⟩
  · rintro ⟨ds, hreg, h⟩
    exact ⟨_, for_each_field_eq_visit_in_order reg T ds val fn s hreg h⟩

/-- The call `for_each_field<T>(fn)` is accepted exactly when the lookup for `T` succeeds and
the static requirements `InstantiatesMeta` hold of the sequence it yields. -/
theorem for_each_field_meta_ok_iff {V S : Type} (reg : Registry V) (T : CType)
    (fn : Visitor V S) (s : S) :
    (∃ r, for_each_field_meta reg T fn s = .ok r) ↔
      ∃ ds, reflection_of reg T = .ok ds ∧ InstantiatesMeta ds fn := by
  constructor
  · rintro ⟨r, hr⟩
    cases hreg : reflection_of reg T with
    | error e => simp [for_each_field_meta, hreg] at hr
    | ok ds =>
      refine ⟨ds, rfl, ?_⟩
      simp only [for_each_field_meta, hreg, reflection_num_fields_of_ok reg T ds hreg,
        internal.for_each_field_meta] at hr
      cases hd : internal.deduce_fields ds with
      | error e => simp [hd] at hr
      | ok x =>
        simp only [hd] at hr
        obtain ⟨hne, hc, hk⟩ := deduce_fields_uniform ds x hd
        have hall := fold_call_fn_meta_ok_requires ds fn _ _ r hr
        refine ⟨hne, hc, hk, ?_⟩
        intro d hd1
        obtain ⟨k, hk1, rfl⟩ := List.getElem_of_mem hd1
        obtain ⟨fld, hf, hrest⟩ := hall k (List.mem_range.mpr hk1)
        rw [List.getElem?_eq_getElem hk1] at hf
        cases hf
        exact hrest
  · rintro ⟨ds, hreg, h⟩
    exact ⟨_, for_each_field_meta_eq_visit_in_order reg T ds fn s hreg h⟩

/-! ## Properties of the visits in declared order -/

/-- The visits of a concatenation. -/
theorem visit_in_order_append {V S : Type} (fn : Visitor V S) (xs ys : List (field V))
    (r : Run V S) :
    visit_in_order fn (xs ++ ys) r = visit_in_order fn ys (visit_in_order fn xs r) := by
  simp [visit_in_order, List.foldl_append]

/-- The invocations only grow: the visits of `ds` append one invocation per descriptor. -/
theorem visit_in_order_calls {V S : Type} (fn : Visitor V S) (ds : List (field V))
    (r : Run V S) :
    ∃ l, (visit_in_order fn ds r).calls = r.calls ++ l ∧ l.length = ds.length ∧
      l.map Call.name = ds.map field.name ∧
      ∀ c ∈ l, ∀ d, c.descriptor = some d → d ∈ ds := by
  induction ds generalizing r with
  | nil => exact ⟨[], by simp [visit_in_order], rfl, rfl, by simp⟩
  | cons d rest ih =>
    obtain ⟨l, hl, hlen, hnames, hdesc⟩ := ih (visit fn r d)
    refine ⟨fn.shape d (r.val d.pointerToField) :: l, ?_, by simp [hlen], ?_, ?_⟩
    · have : visit_in_order fn (d :: rest) r = visit_in_order fn rest (visit fn r d) := rfl
      rw [this, hl]
      simp [visit]
    · have hn : (fn.shape d (r.val d.pointerToField)).name = d.name := by
        unfold Visitor.shape
        split <;> rfl
      simp [hn, hnames]
    · intro c hc e he
      rcases List.mem_cons.mp hc with h | h
      · subst h
        unfold Visitor.shape at he
        split at he
        · simp only [Call.descriptor, Option.some.injEq] at he
          exact he ▸ List.mem_cons_self _ _
        · simp [Call.descriptor] at he
      · exact List.mem_cons_of_mem _ (hdesc c h e he)

/-- The invocations made by the first `k` visits are the first `k` invocations of all visits. -/
theorem visit_in_order_take_calls {V S : Type} (fn : Visitor V S) (ds : List (field V))
    (val : Nat → V) (s : S) (k : Nat) (hk : k ≤ ds.length) :
    (visit_in_order fn (ds.take k) ⟨val, s, []⟩).calls
      = (visit_in_order fn ds ⟨val, s, []⟩).calls.take k := by
  obtain ⟨l1, h1, hlen1, -, -⟩ := visit_in_order_calls fn (ds.take k) ⟨val, s, []⟩
  obtain ⟨l2, h2, -, -, -⟩ :=
    visit_in_order_calls fn (ds.drop k) (visit_in_order fn (ds.take k) ⟨val, s, []⟩)
  have hsplit : visit_in_order fn ds ⟨val, s, []⟩
      = visit_in_order fn (ds.drop k) (visit_in_order fn (ds.take k) ⟨val, s, []⟩) := by
    rw [← visit_in_order_append, List.take_append_drop]
  have hk1 : l1.length = k := by rw [hlen1, List.length_take]; omega
  rw [hsplit, h2, h1]
  simp only [List.nil_append]
  rw [List.take_append_of_le_length (by omega), List.take_of_length_le (by omega)]

/-- The `k`-th invocation of the visits of `ds` is the one made by visiting `ds[k]` on the
object as the first `k` visits left it. -/
theorem visit_in_order_call_at {V S : Type} (fn : Visitor V S) (ds : List (field V))
    (val : Nat → V) (s : S) (k : Nat) (hk : k < ds.length) :
    (visit_in_order fn ds ⟨val, s, []⟩).calls[k]?
      = some (fn.shape ds[k]
          ((visit_in_order fn (ds.take k) ⟨val, s, []⟩).val (ds[k]).pointerToField)) := by
  have h1 := visit_in_order_take_calls fn ds val s (k + 1) hk
  have h0 := visit_in_order_take_calls fn ds val s k (Nat.le_of_lt hk)
  rw [visit_in_order_take_succ fn ds _ k hk] at h1
  have hlen : ((visit_in_order fn ds ⟨val, s, []⟩).calls.take k).length = k := by
    obtain ⟨l, hl, hlen, -, -⟩ := visit_in_order_calls fn ds ⟨val, s, []⟩
    rw [hl, List.length_take]
    simp only [List.nil_append]
    omega
  have h2 : ((visit_in_order fn ds ⟨val, s, []⟩).calls.take (k + 1))[k]?
      = (visit_in_order fn ds ⟨val, s, []⟩).calls[k]? := by
    rw [List.getElem?_take]
    simp
  rw [← h2, ← h1]
  simp only [visit]
  rw [h0, List.getElem?_append_right (by omega), hlen]
  simp

/-- Storage that no descriptor addresses is left as it was. -/
theorem visit_in_order_val_of_not_addressed {V S : Type} (fn : Visitor V S)
    (ds : List (field V)) (r : Run V S) (m : Nat) (hm : ∀ d ∈ ds, d.pointerToField ≠ m) :
    (visit_in_order fn ds r).val m = r.val m := by
  induction ds generalizing r with
  | nil => rfl
  | cons d rest ih =>
    have : visit_in_order fn (d :: rest) r = visit_in_order fn rest (visit fn r d) := rfl
    rw [this, ih _ (fun e he => hm e (List.mem_cons_of_mem _ he))]
    simp only [visit]
    exact Function.update_noteq (fun e => hm d (List.mem_cons_self _ _) e.symm) _ _

/-- The object after the visits is the object after the writes of the visitor. -/
theorem visit_in_order_val_eq_apply_writes {V S : Type} (fn : Visitor V S)
    (ds : List (field V)) (r : Run V S) :
    (visit_in_order fn ds r).val = apply_writes fn ds r.val r.fn := by
  induction ds generalizing r with
  | nil => rfl
  | cons d rest ih =>
    have : visit_in_order fn (d :: rest) r = visit_in_order fn rest (visit fn r d) := rfl
    rw [this, ih]
    rfl

/-- A visitor that leaves every value as received leaves the object as it was. -/
theorem visit_in_order_val_of_no_write {V S : Type} (fn : Visitor V S)
    (ds : List (field V)) (r : Run V S)
    (hw : ∀ d ∈ ds, ∀ s v, (fn.answer d s v).2 = v) :
    (visit_in_order fn ds r).val = r.val := by
  induction ds generalizing r with
  | nil => rfl
  | cons d rest ih =>
    have : visit_in_order fn (d :: rest) r = visit_in_order fn rest (visit fn r d) := rfl
    rw [this, ih _ (fun e he => hw e (List.mem_cons_of_mem _ he))]
    simp only [visit, hw d (List.mem_cons_self _ _)]
    exact Function.update_eq_self _ _

/-- The invocations of the metadata visits: one per descriptor, in declared order. -/
theorem visit_in_order_meta_calls {V S : Type} (fn : Visitor V S) (ds : List (field V))
    (r : MetaRun V S) :
    (visit_in_order_meta fn ds r).calls = r.calls ++ ds.map fn.shape_meta := by
  induction ds generalizing r with
  | nil => simp [visit_in_order_meta]
  | cons d rest ih =>
    have : visit_in_order_meta fn (d :: rest) r
        = visit_in_order_meta fn rest (visit_meta fn r d) := rfl
    rw [this, ih]
    simp [visit_meta]

/-! ## Engine: the claims on order, shape, aliasing and frame -/

/-- Descriptors at different positions of a sequence with pairwise distinct accessors address
different storage. -/
theorem accessor_ne_of_nodup {V : Type} (ds : List (field V))
    (hnd : (ds.map field.pointerToField).Nodup) (j k : Nat) (hj : j < ds.length)
    (hk : k < ds.length) (hne : j ≠ k) :
    (ds[j]).pointerToField ≠ (ds[k]).pointerToField := by
  intro e
  have hj1 : j < (ds.map field.pointerToField).length := by simpa using hj
  have hk1 : k < (ds.map field.pointerToField).length := by simpa using hk
  have h : (ds.map field.pointerToField)[j] = (ds.map field.pointerToField)[k] := by
    simpa using e
  exact hne (hnd.getElem_inj_iff.mp h)

/-- **C1.** For a type `T` whose lookup yields the sequence `ds` of `n` descriptors, and a call
`for_each_field(val, fn)` that instantiates, the call makes exactly `n` invocations of the
visitor, their names are the names of `ds` in declared order, and the `k`-th invocation carries
the name of `ds[k]` and the value that the storage addressed by the accessor of `ds[k]` holds
at that moment, that is after the first `k` invocations. -/
theorem for_each_field_visits_in_declared_order {V S : Type} (reg : Registry V) (T : CType)
    (ds : List (field V)) (val : Nat → V) (fn : Visitor V S) (s : S)
    (hreg : reflection_of reg T = .ok ds) (h : Instantiates T ds fn) :
    ∃ r, for_each_field reg T val fn s = .ok r ∧
      r.calls.length = ds.length ∧
      r.calls.map Call.name = ds.map field.name ∧
      ∀ k (hk : k < ds.length), ∃ pre,
        internal.for_each_field T ⟨val, s, []⟩ ds (List.range k) fn = .ok pre ∧
        pre.calls = r.calls.take k ∧
        (r.calls[k]?).map Call.name = some (ds[k]).name ∧
        (r.calls[k]?).bind Call.value = some (pre.val (ds[k]).pointerToField) := by
  refine ⟨_, for_each_field_eq_visit_in_order reg T ds val fn s hreg h, ?_, ?_, ?_⟩
  · obtain ⟨l, hl, hlen, -, -⟩ := visit_in_order_calls fn ds ⟨val, s, []⟩
    rw [hl]
    simpa using hlen
  · obtain ⟨l, hl, -, hnames, -⟩ := visit_in_order_calls fn ds ⟨val, s, []⟩
    rw [hl]
    simpa using hnames
  · intro k hk
    refine ⟨_, internal_for_each_field_first_indices T ds fn _ h k (Nat.le_of_lt hk),
      visit_in_order_take_calls fn ds val s k (Nat.le_of_lt hk), ?_, ?_⟩
    · rw [visit_in_order_call_at fn ds val s k hk]
      unfold Visitor.shape
      split <;> rfl
    · rw [visit_in_order_call_at fn ds val s k hk]
      unfold Visitor.shape
      split <;> rfl

/-- Instance of C1: `Point{x: 3, y: 4}` gives `visitor("x", 3)` then `visitor("y", 4)`. -/
theorem for_each_field_visits_in_declared_order_witness :
    (for_each_field pointRegistry PointRef p34 plainVisitor ()).map (fun r => r.calls)
      = .ok [.name_value "x" 3, .name_value "y" 4] ∧
    ∃ r, for_each_field pointRegistry PointRef p34 plainVisitor () = .ok r ∧
      r.calls.length = Point.reflection.length ∧
      r.calls.map Call.name = Point.reflection.map field.name ∧
      ∀ k (hk : k < Point.reflection.length), ∃ pre,
        internal.for_each_field PointRef ⟨p34, (), []⟩ Point.reflection (List.range k)
          plainVisitor = .ok pre ∧
        pre.calls = r.calls.take k ∧
        (r.calls[k]?).map Call.name = some (Point.reflection[k]).name ∧
        (r.calls[k]?).bind Call.value = some (pre.val (Point.reflection[k]).pointerToField) :=
  ⟨rfl, for_each_field_visits_in_declared_order pointRegistry PointRef Point.reflection p34
    plainVisitor () rfl ⟨by decide, by decide, by decide, by decide⟩⟩

/-- **C2.** For a type `T` whose lookup yields the sequence `ds` of `n` descriptors, and a
visitor that accepts the descriptor for no field, the metadata-only call `for_each_field<T>(fn)`,
which takes no object, makes exactly `n` invocations when it instantiates, the `k`-th one with
the name of `ds[k]` as only argument, in declared order. -/
theorem for_each_field_meta_names_in_declared_order {V S : Type} (reg : Registry V) (T : CType)
    (ds : List (field V)) (fn : Visitor V S) (s : S)
    (hreg : reflection_of reg T = .ok ds) (h : InstantiatesMeta ds fn)
    (hno : ∀ d ∈ ds, fn.invocable_name_field d.args = false) :
    ∃ r, for_each_field_meta reg T fn s = .ok r ∧
      r.calls = ds.map (fun d => Call.name_only d.name) ∧
      r.calls.length = ds.length := by
  have hcalls : (visit_in_order_meta fn ds ⟨s, []⟩).calls
      = ds.map (fun d => Call.name_only d.name) := by
    rw [visit_in_order_meta_calls]
    simp only [List.nil_append]
    apply List.map_congr_left
    intro d hd
    simp [Visitor.shape_meta, hno d hd]
  refine ⟨_, for_each_field_meta_eq_visit_in_order reg T ds fn s hreg h, hcalls, ?_⟩
  rw [hcalls, List.length_map]

/-- Instance of C2: `Point` gives `visitor("x")` then `visitor("y")`. -/
theorem for_each_field_meta_names_in_declared_order_witness :
    ∃ r, for_each_field_meta pointRegistry PointT plainVisitor () = .ok r ∧
      r.calls = [.name_only "x", .name_only "y"] ∧
      r.calls.length = Point.reflection.length :=
  for_each_field_meta_names_in_declared_order pointRegistry PointT Point.reflection
    plainVisitor () rfl ⟨by decide, by decide, by decide, by decide⟩ (by decide)

/-- Selection follows the trait of line 57.  In a call `for_each_field(val, fn)` that
instantiates, the `k`-th invocation is, for each `k` on its own: the call
`fn(name, value, descriptor)` with the descriptor `ds[k]` itself when the trait holds of the
type of `ds[k]`, and the call `fn(name, value)` when it does not. -/
theorem for_each_field_selects_shape_by_trait {V S : Type} (reg : Registry V) (T : CType)
    (ds : List (field V)) (val : Nat → V) (fn : Visitor V S) (s : S)
    (hreg : reflection_of reg T = .ok ds) (h : Instantiates T ds fn) :
    ∃ r, for_each_field reg T val fn s = .ok r ∧
      ∀ k (hk : k < ds.length), ∃ pre,
        internal.for_each_field T ⟨val, s, []⟩ ds (List.range k) fn = .ok pre ∧
        (fn.invocable_name_value_field (ds[k]).args = true →
          r.calls[k]? = some (.name_value_field (ds[k]).name
            (pre.val (ds[k]).pointerToField) ds[k])) ∧
        (fn.invocable_name_value_field (ds[k]).args = false →
          r.calls[k]? = some (.name_value (ds[k]).name (pre.val (ds[k]).pointerToField))) := by
  refine ⟨_, for_each_field_eq_visit_in_order reg T ds val fn s hreg h, ?_⟩
  intro k hk
  refine ⟨_, internal_for_each_field_first_indices T ds fn _ h k (Nat.le_of_lt hk), ?_, ?_⟩
  · intro h3
    rw [visit_in_order_call_at fn ds val s k hk]
    simp [Visitor.shape, h3]
  · intro h3
    rw [visit_in_order_call_at fn ds val s k hk]
    simp [Visitor.shape, h3]

/-- On `Sample{a: 5, b: 6, c: 7}` a visitor for which the trait holds for `int` fields only is
called with the descriptor for `a` and `c` and without it for `b`. -/
theorem for_each_field_selects_shape_by_trait_witness :
    (for_each_field sampleRegistry SampleRef s567 intVisitor 0).map (fun r => r.calls)
      = .ok [.name_value_field "a" 5 ⟨"Sample", "int", [⟨"unit", 1⟩], "a", 0⟩,
          .name_value "b" 6,
          .name_value_field "c" 7 ⟨"Sample", "int", [⟨"unit", 3⟩], "c", 2⟩] ∧
    ∃ r, for_each_field sampleRegistry SampleRef s567 intVisitor 0 = .ok r ∧
      ∀ k (hk : k < Sample.reflection.length), ∃ pre,
        internal.for_each_field SampleRef ⟨s567, 0, []⟩ Sample.reflection (List.range k)
          intVisitor = .ok pre ∧
        (intVisitor.invocable_name_value_field (Sample.reflection[k]).args = true →
          r.calls[k]? = some (.name_value_field (Sample.reflection[k]).name
            (pre.val (Sample.reflection[k]).pointerToField) Sample.reflection[k])) ∧
        (intVisitor.invocable_name_value_field (Sample.reflection[k]).args = false →
          r.calls[k]? = some (.name_value (Sample.reflection[k]).name
            (pre.val (Sample.reflection[k]).pointerToField))) :=
  ⟨rfl, for_each_field_selects_shape_by_trait sampleRegistry SampleRef Sample.reflection s567
    intVisitor 0 rfl ⟨by decide, by decide, by decide, by decide⟩⟩

/-- Selection follows the trait of line 65.  In a metadata-only call `for_each_field<T>(fn)`
that instantiates, the `k`-th invocation is, for each `k` on its own: the call
`fn(name, descriptor)` with the descriptor `ds[k]` itself when the trait holds of the type of
`ds[k]`, and the call `fn(name)` when it does not. -/
theorem for_each_field_meta_selects_shape_by_trait {V S : Type} (reg : Registry V) (T : CType)
    (ds : List (field V)) (fn : Visitor V S) (s : S)
    (hreg : reflection_of reg T = .ok ds) (h : InstantiatesMeta ds fn) :
    ∃ r, for_each_field_meta reg T fn s = .ok r ∧
      r.calls.length = ds.length ∧
      ∀ k (hk : k < ds.length),
        (fn.invocable_name_field (ds[k]).args = true →
          r.calls[k]? = some (.name_field (ds[k]).name ds[k])) ∧
        (fn.invocable_name_field (ds[k]).args = false →
          r.calls[k]? = some (.name_only (ds[k]).name)) := by
  refine ⟨_, for_each_field_meta_eq_visit_in_order reg T ds fn s hreg h, ?_, ?_⟩
  · rw [visit_in_order_meta_calls]
    simp
  · intro k hk
    rw [visit_in_order_meta_calls]
    simp only [List.nil_append, List.getElem?_map, List.getElem?_eq_getElem hk, Option.map_some']
    constructor
    · intro h3
      simp [Visitor.shape_meta, h3]
    · intro h3
      simp [Visitor.shape_meta, h3]

/-- For `Sample` a visitor for which the trait holds for `int` fields only is called with the
descriptor for `a` and `c` and with the name alone for `b`. -/
theorem for_each_field_meta_selects_shape_by_trait_witness :
    (for_each_field_meta sampleRegistry SampleRef intVisitor 0).map (fun r => r.calls)
      = .ok [.name_field "a" ⟨"Sample", "int", [⟨"unit", 1⟩], "a", 0⟩,
          .name_only "b",
          .name_field "c" ⟨"Sample", "int", [⟨"unit", 3⟩], "c", 2⟩] ∧
    ∃ r, for_each_field_meta sampleRegistry SampleRef intVisitor 0 = .ok r ∧
      r.calls.length = Sample.reflection.length ∧
      ∀ k (hk : k < Sample.reflection.length),
        (intVisitor.invocable_name_field (Sample.reflection[k]).args = true →
          r.calls[k]? = some (.name_field (Sample.reflection[k]).name Sample.reflection[k])) ∧
        (intVisitor.invocable_name_field (Sample.reflection[k]).args = false →
          r.calls[k]? = some (.name_only (Sample.reflection[k]).name)) :=
  ⟨rfl, for_each_field_meta_selects_shape_by_trait sampleRegistry SampleRef Sample.reflection
    intVisitor 0 rfl ⟨by decide, by decide, by decide, by decide⟩⟩

/-- **C7.** In a call `for_each_field(val, fn)` that instantiates, for every position `k`: the
value the visitor receives for `ds[k]` is the value read directly from the storage of `val`
that the accessor of `ds[k]` addresses, and the value the visitor leaves in the reference is
the value read directly from that storage when the invocation returns.  When the accessors of
the sequence are pairwise distinct, the value received is the one the object held before the
enumeration and the value left is the one the object holds after it. -/
theorem for_each_field_reference_aliases_field {V S : Type} (reg : Registry V) (T : CType)
    (ds : List (field V)) (val : Nat → V) (fn : Visitor V S) (s : S)
    (hreg : reflection_of reg T = .ok ds) (h : Instantiates T ds fn) :
    ∃ r, for_each_field reg T val fn s = .ok r ∧
      ∀ k (hk : k < ds.length), ∃ pre post,
        internal.for_each_field T ⟨val, s, []⟩ ds (List.range k) fn = .ok pre ∧
        internal.for_each_field T ⟨val, s, []⟩ ds (List.range (k + 1)) fn = .ok post ∧
        (r.calls[k]?).bind Call.value = some (pre.val (ds[k]).pointerToField) ∧
        (fn.invocable_name_value_field (ds[k]).args = true →
          post.val (ds[k]).pointerToField = (fn.call_name_value_field pre.fn (ds[k]).name
            (pre.val (ds[k]).pointerToField) ds[k]).2) ∧
        (fn.invocable_name_value_field (ds[k]).args = false →
          post.val (ds[k]).pointerToField = (fn.call_name_value pre.fn (ds[k]).name
            (pre.val (ds[k]).pointerToField)).2) ∧
        ((ds.map field.pointerToField).Nodup →
          pre.val (ds[k]).pointerToField = val (ds[k]).pointerToField ∧
          r.val (ds[k]).pointerToField = post.val (ds[k]).pointerToField) := by
  refine ⟨_, for_each_field_eq_visit_in_order reg T ds val fn s hreg h, ?_⟩
  intro k hk
  refine ⟨_, _, internal_for_each_field_first_indices T ds fn _ h k (Nat.le_of_lt hk),
    internal_for_each_field_first_indices T ds fn _ h (k + 1) hk, ?_, ?_, ?_, ?_⟩
  · rw [visit_in_order_call_at fn ds val s k hk]
    unfold Visitor.shape
    split <;> rfl
  · intro h3
    rw [visit_in_order_take_succ fn ds _ k hk]
    simp [visit, Visitor.answer, h3]
  · intro h3
    rw [visit_in_order_take_succ fn ds _ k hk]
    simp [visit, Visitor.answer, h3]
  · intro hnd
    constructor
    · apply visit_in_order_val_of_not_addressed
      intro d hd
      obtain ⟨j, hj, rfl⟩ := List.mem_take_iff_getElem.mp hd
      exact accessor_ne_of_nodup ds hnd j k (by omega) hk (by omega)
    · have hsplit : visit_in_order fn ds ⟨val, s, []⟩
          = visit_in_order fn (ds.drop (k + 1))
              (visit_in_order fn (ds.take (k + 1)) ⟨val, s, []⟩) := by
        rw [← visit_in_order_append, List.take_append_drop]
      rw [hsplit]
      apply visit_in_order_val_of_not_addressed
      intro d hd
      obtain ⟨j, hj, rfl⟩ := List.mem_drop_iff_getElem.mp hd
      exact accessor_ne_of_nodup ds hnd (k + 1 + j) k (by omega) hk (by omega)

/-- Instance of C7: on `Sample{a: 5, b: 6, c: 7}` the visitor receives 5, 6, 7 and the object
holds afterwards what the visitor wrote: 50, 7, 70. -/
theorem for_each_field_reference_aliases_field_witness :
    (for_each_field sampleRegistry SampleRef s567 intVisitor 0).map
        (fun r => (r.calls.map Call.value, r.val 0, r.val 1, r.val 2))
      = .ok ([some 5, some 6, some 7], 50, 7, 70) ∧
    ∃ r, for_each_field sampleRegistry SampleRef s567 intVisitor 0 = .ok r ∧
      ∀ k (hk : k < Sample.reflection.length), ∃ pre post,
        internal.for_each_field SampleRef ⟨s567, 0, []⟩ Sample.reflection (List.range k)
          intVisitor = .ok pre ∧
        internal.for_each_field SampleRef ⟨s567, 0, []⟩ Sample.reflection (List.range (k + 1))
          intVisitor = .ok post ∧
        (r.calls[k]?).bind Call.value = some (pre.val (Sample.reflection[k]).pointerToField) ∧
        (intVisitor.invocable_name_value_field (Sample.reflection[k]).args = true →
          post.val (Sample.reflection[k]).pointerToField
            = (intVisitor.call_name_value_field pre.fn (Sample.reflection[k]).name
                (pre.val (Sample.reflection[k]).pointerToField) Sample.reflection[k]).2) ∧
        (intVisitor.invocable_name_value_field (Sample.reflection[k]).args = false →
          post.val (Sample.reflection[k]).pointerToField
            = (intVisitor.call_name_value pre.fn (Sample.reflection[k]).name
                (pre.val (Sample.reflection[k]).pointerToField)).2) ∧
        ((Sample.reflection.map field.pointerToField).Nodup →
          pre.val (Sample.reflection[k]).pointerToField
            = s567 (Sample.reflection[k]).pointerToField ∧
          r.val (Sample.reflection[k]).pointerToField
            = post.val (Sample.reflection[k]).pointerToField) :=
  ⟨rfl, for_each_field_reference_aliases_field sampleRegistry SampleRef Sample.reflection s567
    intVisitor 0 rfl ⟨by decide, by decide, by decide, by decide⟩⟩

/-- **C10.** In a call `for_each_field(val, fn)` that instantiates, the object afterwards is the
object obtained by applying the writes of the visitor alone, descriptor by descriptor in
declared order.  Hence a visitor that leaves every value as it received it leaves the object
unchanged; storage that no descriptor addresses is unchanged; an invocation changes no storage
but the one its descriptor addresses; and the sequence is not changed: the lookup still yields
`ds` and every descriptor handed to the visitor is a member of `ds`. -/
theorem for_each_field_engine_mutates_nothing {V S : Type} (reg : Registry V) (T : CType)
    (ds : List (field V)) (val : Nat → V) (fn : Visitor V S) (s : S)
    (hreg : reflection_of reg T = .ok ds) (h : Instantiates T ds fn) :
    ∃ r, for_each_field reg T val fn s = .ok r ∧
      r.val = apply_writes fn ds val s ∧
      ((∀ d ∈ ds, ∀ s1 v, (fn.answer d s1 v).2 = v) → r.val = val) ∧
      (∀ m, (∀ d ∈ ds, d.pointerToField ≠ m) → r.val m = val m) ∧
      (∀ k (hk : k < ds.length), ∃ pre post,
        internal.for_each_field T ⟨val, s, []⟩ ds (List.range k) fn = .ok pre ∧
        internal.for_each_field T ⟨val, s, []⟩ ds (List.range (k + 1)) fn = .ok post ∧
        ∀ m, m ≠ (ds[k]).pointerToField → post.val m = pre.val m) ∧
      reflection_of reg T = .ok ds ∧
      (∀ c ∈ r.calls, ∀ d, c.descriptor = some d → d ∈ ds) := by
  refine ⟨_, for_each_field_eq_visit_in_order reg T ds val fn s hreg h,
    visit_in_order_val_eq_apply_writes fn ds _,
    fun hw => visit_in_order_val_of_no_write fn ds _ hw,
    fun m hm => visit_in_order_val_of_not_addressed fn ds _ m hm, ?_, hreg, ?_⟩
  · intro k hk
    refine ⟨_, _, internal_for_each_field_first_indices T ds fn _ h k (Nat.le_of_lt hk),
      internal_for_each_field_first_indices T ds fn _ h (k + 1) hk, ?_⟩
    intro m hm
    rw [visit_in_order_take_succ fn ds _ k hk]
    simp only [visit]
    exact Function.update_noteq hm _ _
  · obtain ⟨l, hl, -, -, hdesc⟩ := visit_in_order_calls fn ds ⟨val, s, []⟩
    intro c hc d hd
    rw [hl] at hc
    exact hdesc c (by simpa using hc) d hd

/-- Instance of C10: on `Point{x: 3, y: 4}` a visitor that writes nothing leaves 3 and 4; on
`Sample{a: 5, b: 6, c: 7}` the writing visitor leaves member 3, which no descriptor addresses,
as it was. -/
theorem for_each_field_engine_mutates_nothing_witness :
    (for_each_field pointRegistry PointRef p34 plainVisitor ()).map
        (fun r => (r.val 0, r.val 1)) = .ok (3, 4) ∧
    ∃ r, for_each_field sampleRegistry SampleRef s567 intVisitor 0 = .ok r ∧
      r.val = apply_writes intVisitor Sample.reflection s567 0 ∧
      ((∀ d ∈ Sample.reflection, ∀ s1 v, (intVisitor.answer d s1 v).2 = v) → r.val = s567) ∧
      (∀ m, (∀ d ∈ Sample.reflection, d.pointerToField ≠ m) → r.val m = s567 m) ∧
      (∀ k (hk : k < Sample.reflection.length), ∃ pre post,
        internal.for_each_field SampleRef ⟨s567, 0, []⟩ Sample.reflection (List.range k)
          intVisitor = .ok pre ∧
        internal.for_each_field SampleRef ⟨s567, 0, []⟩ Sample.reflection (List.range (k + 1))
          intVisitor = .ok post ∧
        ∀ m, m ≠ (Sample.reflection[k]).pointerToField → post.val m = pre.val m) ∧
      reflection_of sampleRegistry SampleRef = .ok Sample.reflection ∧
      (∀ c ∈ r.calls, ∀ d, c.descriptor = some d → d ∈ Sample.reflection) :=
  ⟨rfl, for_each_field_engine_mutates_nothing sampleRegistry SampleRef Sample.reflection s567
    intVisitor 0 rfl ⟨by decide, by decide, by decide, by decide⟩⟩

/-! ## Engine: rejection -/

/-- A result is a rejection when it is no acceptance. -/
theorem error_of_not_ok {A : Type} (x : Except Reject A) (h : ¬ ∃ a, x = .ok a) :
    ∃ e, x = .error e := by
  cases x with
  | error e => exact ⟨e, rfl⟩
  | ok a => exact absurd ⟨a, rfl⟩ h

/-- **C11.** For a class that declares no `reflection`, and every form `T` of it, the lookup
`reflection_of<T>`, the count `reflection_num_fields<T>` and both entry points are rejected,
with the same reason: there is no sequence, in particular no empty one, and there is no run,
hence no invocation of the visitor. -/
theorem unregistered_type_is_rejected {V S : Type} (reg : Registry V) (T : CType)
    (val : Nat → V) (fn : Visitor V S) (s : S) (hreg : reg T.cls = none) :
    ∃ e, (e = .no_reflection_member ∨ e = .ambiguous_specialization) ∧
      reflection_of reg T = .error e ∧
      reflection_of reg T ≠ .ok [] ∧
      reflection_num_fields reg T = .error e ∧
      for_each_field reg T val fn s = .error e ∧
      for_each_field_meta reg T fn s = .error e := by
  have hlook : ∃ e, (e = Reject.no_reflection_member ∨ e = Reject.ambiguous_specialization) ∧
      reflection_of reg T = .error e := by
    rw [reflection_of_eq, hreg]
    by_cases hcv : T.isConst = true ∧ T.isVolatile = true
    · exact ⟨_, Or.inr rfl, by rw [if_pos hcv]⟩
    · exact ⟨_, Or.inl rfl, by rw [if_neg hcv]⟩
  obtain ⟨e, he, hl⟩ := hlook
  refine ⟨e, he, hl, by simp [hl], ?_, ?_, ?_⟩
  · simp [reflection_num_fields, hl, Except.map]
  · simp [for_each_field, hl]
  · simp [for_each_field_meta, hl]

/-- Instance of C11: `Unknown` declares no `reflection`. -/
theorem unregistered_type_is_rejected_witness :
    (for_each_field edgeRegistry UnknownRef v23 anyVisitor 0).map (fun r => r.calls)
      = .error .no_reflection_member ∧
    ∃ e, (e = .no_reflection_member ∨ e = .ambiguous_specialization) ∧
      reflection_of edgeRegistry UnknownRef = .error e ∧
      reflection_of edgeRegistry UnknownRef ≠ .ok [] ∧
      reflection_num_fields edgeRegistry UnknownRef = .error e ∧
      for_each_field edgeRegistry UnknownRef v23 anyVisitor 0 = .error e ∧
      for_each_field_meta edgeRegistry UnknownRef anyVisitor 0 = .error e :=
  ⟨rfl, unregistered_type_is_rejected edgeRegistry UnknownRef v23 anyVisitor 0 rfl⟩

/-- What the visitor decides of acceptance.  For a type whose lookup yields the sequence `ds`:
if for some field neither call of an entry point is well-formed, that entry point is rejected
as a whole, so that there is no run and no invocation, not even for earlier fields the visitor
accepts; and on a sequence for which the template arguments of the engine are deduced (and,
with an object, whose descriptors are for the class of the object), the entry point is accepted
as soon as, for every field, the call that the trait selects is well-formed, and then makes one
invocation per field. -/
theorem enumeration_rejected_iff_some_field_not_invocable {V S : Type} (reg : Registry V)
    (T : CType) (ds : List (field V)) (val : Nat → V) (fn : Visitor V S) (s : S)
    (hreg : reflection_of reg T = .ok ds) :
    ((∃ d ∈ ds, fn.accepts_name_value_field T d.args = false ∧
        fn.accepts_name_value T d.FieldType = false) →
      ∃ e, for_each_field reg T val fn s = .error e) ∧
    ((∃ d ∈ ds, fn.accepts_name_field d.args = false ∧ fn.invocable_name = false) →
      ∃ e, for_each_field_meta reg T fn s = .error e) ∧
    ((∃ x, internal.deduce_fields ds = .ok x) → (∀ d ∈ ds, d.Class = T.cls) →
      (∀ d ∈ ds, (fn.invocable_name_value_field d.args = true ∧
          fn.accepts_name_value_field T d.args = true) ∨
        (fn.invocable_name_value_field d.args = false ∧
          fn.accepts_name_value T d.FieldType = true)) →
      ∃ r, for_each_field reg T val fn s = .ok r ∧ r.calls.length = ds.length) ∧
    ((∃ x, internal.deduce_fields ds = .ok x) →
      (∀ d ∈ ds, (fn.invocable_name_field d.args = true ∧
          fn.accepts_name_field d.args = true) ∨
        (fn.invocable_name_field d.args = false ∧ fn.invocable_name = true)) →
      ∃ r, for_each_field_meta reg T fn s = .ok r ∧ r.calls.length = ds.length) := by
  refine ⟨?_, ?_, ?_, ?_⟩
  · rintro ⟨d, hd, h3, h2⟩
    apply error_of_not_ok
    intro hok
    obtain ⟨ds1, hreg1, hinst⟩ := (for_each_field_ok_iff reg T val fn s).mp hok
    rw [hreg] at hreg1
    cases hreg1
    rcases hinst.invocable d hd with ⟨-, h⟩ | ⟨-, h⟩
    · rw [h3] at h
      cases h
    · rw [h2] at h
      cases h
  · rintro ⟨d, hd, h3, h2⟩
    apply error_of_not_ok
    intro hok
    obtain ⟨ds1, hreg1, hinst⟩ := (for_each_field_meta_ok_iff reg T fn s).mp hok
    rw [hreg] at hreg1
    cases hreg1
    rcases hinst.invocable d hd with ⟨-, h⟩ | ⟨-, h⟩
    · rw [h3] at h
      cases h
    · rw [h2] at h
      cases h
  · rintro ⟨x, hx⟩ hcls hinv
    obtain ⟨hne, -, hk⟩ := deduce_fields_uniform ds x hx
    have hinst : Instantiates T ds fn := ⟨hne, hcls, hk, hinv⟩
    refine ⟨_, for_each_field_eq_visit_in_order reg T ds val fn s hreg hinst, ?_⟩
    obtain ⟨l, hl, hlen, -, -⟩ := visit_in_order_calls fn ds ⟨val, s, []⟩
    rw [hl]
    simpa using hlen
  · rintro ⟨x, hx⟩ hinv
    obtain ⟨hne, hc, hk⟩ := deduce_fields_uniform ds x hx
    have hinst : InstantiatesMeta ds fn := ⟨hne, hc, hk, hinv⟩
    refine ⟨_, for_each_field_meta_eq_visit_in_order reg T ds fn s hreg hinst, ?_⟩
    rw [visit_in_order_meta_calls]
    simp

/-- On `Sample` a visitor for `int` fields only is rejected because of `b`, although it accepts
`a`, which comes first; on `Point` it is accepted. -/
theorem enumeration_rejected_iff_some_field_not_invocable_witness :
    (for_each_field sampleRegistry SampleRef s567 intOnlyVisitor 0).map (fun r => r.calls)
      = .error .not_invocable ∧
    (for_each_field_meta sampleRegistry SampleRef intOnlyVisitor 0).map (fun r => r.calls)
      = .error .not_invocable ∧
    (for_each_field sampleRegistry PointRef p34 intOnlyVisitor 0).map
        (fun r => r.calls.map Call.name) = .ok ["x", "y"] ∧
    (for_each_field sampleRegistry SampleRef s567 anyVisitor 0).map
        (fun r => r.calls.map Call.name) = .ok ["a", "b", "c"] ∧
    ∃ e, for_each_field sampleRegistry SampleRef s567 intOnlyVisitor 0 = .error e :=
  ⟨rfl, rfl, rfl, rfl,
    (enumeration_rejected_iff_some_field_not_invocable sampleRegistry SampleRef
      Sample.reflection s567 intOnlyVisitor 0 rfl).1 (by decide)⟩

/-- A sequence in which two descriptors carry different attribute packs is rejected by both
entry points, whatever the visitor. -/
theorem mixed_attribute_packs_rejected {V S : Type} (reg : Registry V) (T : CType)
    (ds : List (field V)) (val : Nat → V) (fn : Visitor V S) (s : S)
    (hreg : reflection_of reg T = .ok ds)
    (hmix : ∃ d ∈ ds, ∃ e ∈ ds, d.kinds ≠ e.kinds) :
    (∃ e, for_each_field reg T val fn s = .error e) ∧
    (∃ e, for_each_field_meta reg T fn s = .error e) := by
  obtain ⟨d, hd, e, he, hne⟩ := hmix
  constructor
  · apply error_of_not_ok
    intro hok
    obtain ⟨ds1, hreg1, hinst⟩ := (for_each_field_ok_iff reg T val fn s).mp hok
    rw [hreg] at hreg1
    cases hreg1
    exact hne (hinst.sameAttributes d hd e he)
  · apply error_of_not_ok
    intro hok
    obtain ⟨ds1, hreg1, hinst⟩ := (for_each_field_meta_ok_iff reg T fn s).mp hok
    rw [hreg] at hreg1
    cases hreg1
    exact hne (hinst.sameAttributes d hd e he)

/-- An empty sequence is rejected by both entry points, whatever the visitor. -/
theorem empty_sequence_rejected {V S : Type} (reg : Registry V) (T : CType)
    (val : Nat → V) (fn : Visitor V S) (s : S) (hreg : reflection_of reg T = .ok []) :
    for_each_field reg T val fn s = .error .cannot_deduce_Class ∧
    for_each_field_meta reg T fn s = .error .cannot_deduce_Class := by
  constructor
  · simp [for_each_field, hreg, reflection_num_fields_of_ok reg T [] hreg,
      internal.for_each_field, internal.deduce_fields]
  · simp [for_each_field_meta, hreg, reflection_num_fields_of_ok reg T [] hreg,
      internal.for_each_field_meta, internal.deduce_fields]

/-- **C13 (the code departs from the claim).** The class `Mixed` declares `a` with an attribute
and `b` with none; its lookup yields these two descriptors and the visitor `anyVisitor` accepts
every call shape for both, yet both entry points are rejected: `Attributes...` is deduced to
two different packs.  A sequence that differs in field type only, as that of `Sample`, is
accepted and visited in declared order. -/
theorem mixed_attribute_sequence_rejected :
    reflection_of edgeRegistry MixedRef = .ok Mixed.reflection ∧
    Mixed.reflection.map field.kinds = [["unit"], []] ∧
    (for_each_field edgeRegistry MixedRef v23 anyVisitor 0).map (fun r => r.calls)
      = .error .inconsistent_deduction ∧
    (for_each_field_meta edgeRegistry MixedRef anyVisitor 0).map (fun r => r.calls)
      = .error .inconsistent_deduction ∧
    (for_each_field sampleRegistry SampleRef s567 anyVisitor 0).map
      (fun r => r.calls.map Call.name) = .ok ["a", "b", "c"] ∧
    (for_each_field_meta sampleRegistry SampleRef anyVisitor 0).map
      (fun r => r.calls.map Call.name) = .ok ["a", "b", "c"] :=
  ⟨rfl, rfl, rfl, rfl, rfl, rfl⟩

/-- **C14 (the code departs from the claim).** The class `Bare` declares an empty sequence: its
lookup yields no descriptor and `reflection_num_fields` is 0, yet both entry points are
rejected, because nothing is left to deduce `Class` from. -/
theorem empty_sequence_count_zero_but_rejected :
    reflection_of edgeRegistry BareRef = .ok [] ∧
    reflection_num_fields edgeRegistry BareRef = .ok 0 ∧
    (for_each_field edgeRegistry BareRef v23 anyVisitor 0).map (fun r => r.calls)
      = .error .cannot_deduce_Class ∧
    (for_each_field_meta edgeRegistry BareRef anyVisitor 0).map (fun r => r.calls)
      = .error .cannot_deduce_Class :=
  ⟨rfl, rfl, rfl, rfl⟩

/-- **C12 (the code departs from the claim).** The visitor `anyVisitor` accepts a call shape of
either entry point for every field of `Mixed`, and trivially for every field of `Bare`, which
has none; yet both entry points are rejected for `Mixed` (two attribute packs) and for `Bare`
(no descriptor to deduce `Class` from).  The other half of the claim does hold at `Sample`: a
visitor that accepts the first field and not the second is rejected as a whole. -/
theorem accepting_visitor_yet_enumeration_rejected :
    reflection_of edgeRegistry MixedRef = .ok Mixed.reflection ∧
    Mixed.reflection.all (fun d => anyVisitor.invocable_name_value_field d.args ||
      anyVisitor.invocable_name_value d.FieldType) = true ∧
    Mixed.reflection.all (fun d => anyVisitor.invocable_name_field d.args ||
      anyVisitor.invocable_name) = true ∧
    (for_each_field edgeRegistry MixedRef v23 anyVisitor 0).map (fun r => r.calls)
      = .error .inconsistent_deduction ∧
    (for_each_field_meta edgeRegistry MixedRef anyVisitor 0).map (fun r => r.calls)
      = .error .inconsistent_deduction ∧
    reflection_of edgeRegistry BareRef = .ok Bare.reflection ∧
    (for_each_field edgeRegistry BareRef v23 anyVisitor 0).map (fun r => r.calls)
      = .error .cannot_deduce_Class ∧
    (for_each_field_meta edgeRegistry BareRef anyVisitor 0).map (fun r => r.calls)
      = .error .cannot_deduce_Class ∧
    (for_each_field sampleRegistry SampleRef s567 intOnlyVisitor 0).map (fun r => r.calls)
      = .error .not_invocable ∧
    (for_each_field_meta sampleRegistry SampleRef intOnlyVisitor 0).map (fun r => r.calls)
      = .error .not_invocable :=
  ⟨rfl, rfl, rfl, rfl, rfl, rfl, rfl, rfl, rfl, rfl⟩

/-! ## Engine: names, and descriptors that share a name or an accessor -/

/-- Between two positions, storage that no descriptor in between addresses keeps its value. -/
theorem visit_in_order_take_val_between {V S : Type} (fn : Visitor V S) (ds : List (field V))
    (r : Run V S) (m j k : Nat) (hjk : j < k) (hk : k ≤ ds.length)
    (hbetween : ∀ i (hi : i < ds.length), j < i → i < k → (ds[i]).pointerToField ≠ m) :
    (visit_in_order fn (ds.take k) r).val m = (visit_in_order fn (ds.take (j + 1)) r).val m := by
  have hsplit : ds.take k = ds.take (j + 1) ++ (ds.take k).drop (j + 1) := by
    have h := (List.take_append_drop (j + 1) (ds.take k)).symm
    rwa [List.take_take, Nat.min_eq_left (by omega)] at h
  rw [hsplit, visit_in_order_append]
  apply visit_in_order_val_of_not_addressed
  intro d hd
  obtain ⟨i, hi, rfl⟩ := List.mem_drop_iff_getElem.mp hd
  have hlen : (ds.take k).length = k := by rw [List.length_take]; omega
  rw [List.getElem_take]
  exact hbetween (j + 1 + i) (by omega) (by omega) (by omega)

/-- **C15.** For a class that declares the sequence `ds`, an object in any const or reference
form `T`, and any visitors for which the calls instantiate: the names passed by
`for_each_field(val, fn)` are the names passed by the metadata-only `for_each_field<T>(fn)`,
namely those of `ds` in declared order; both calls make `reflection_num_fields<T>` invocations;
and another object with another visitor gets the same names. -/
theorem for_each_field_names_agree {V S1 S2 S3 : Type} (reg : Registry V) (c : String)
    (ds : List (field V)) (T Tm : CType) (val val2 : Nat → V)
    (fn : Visitor V S1) (fn2 : Visitor V S2) (fnm : Visitor V S3) (s : S1) (s2 : S2) (sm : S3)
    (hreg : reg c = some ds) (hT : T.cls = c) (hvol : T.isVolatile = false)
    (hTm : Tm.cls = c) (hcv : ¬ (Tm.isConst = true ∧ Tm.isVolatile = true))
    (h : Instantiates T ds fn) (h2 : Instantiates T ds fn2) (hm : InstantiatesMeta ds fnm) :
    ∃ r r2 m, for_each_field reg T val fn s = .ok r ∧
      for_each_field reg T val2 fn2 s2 = .ok r2 ∧
      for_each_field_meta reg Tm fnm sm = .ok m ∧
      r.calls.map Call.name = m.calls.map Call.name ∧
      r2.calls.map Call.name = r.calls.map Call.name ∧
      r.calls.map Call.name = ds.map field.name ∧
      reflection_num_fields reg T = .ok ds.length ∧
      r.calls.length = ds.length ∧ m.calls.length = ds.length := by
  have hlook : reflection_of reg T = .ok ds :=
    reflection_of_registered reg T ds (hT ▸ hreg) (by simp [hvol])
  have hlookm : reflection_of reg Tm = .ok ds :=
    reflection_of_registered reg Tm ds (hTm ▸ hreg) hcv
  obtain ⟨l, hl, hlen, hnames, -⟩ := visit_in_order_calls fn ds ⟨val, s, []⟩
  obtain ⟨l2, hl2, -, hnames2, -⟩ := visit_in_order_calls fn2 ds ⟨val2, s2, []⟩
  have hmn : (ds.map fnm.shape_meta).map Call.name = ds.map field.name := by
    rw [List.map_map]
    apply List.map_congr_left
    intro d _
    simp only [Function.comp, Visitor.shape_meta]
    split <;> rfl
  refine ⟨_, _, _, for_each_field_eq_visit_in_order reg T ds val fn s hlook h,
    for_each_field_eq_visit_in_order reg T ds val2 fn2 s2 hlook h2,
    for_each_field_meta_eq_visit_in_order reg Tm ds fnm sm hlookm hm, ?_, ?_, ?_,
    reflection_num_fields_of_ok reg T ds hlook, ?_, ?_⟩
  · rw [hl, visit_in_order_meta_calls]
    simp only [List.nil_append]
    rw [hnames, hmn]
  · rw [hl, hl2]
    simp only [List.nil_append]
    rw [hnames, hnames2]
  · rw [hl]
    simpa using hnames
  · rw [hl]
    simpa using hlen
  · rw [visit_in_order_meta_calls]
    simp

/-- Instance of C15: `Sample` through a `const Sample&`, with two objects and visitors that
write nothing and receive different shapes (one the descriptor, one the value alone, one the
name alone); the names are `a`, `b`, `c` each time.  A visitor that writes is not invocable on
the const object. -/
theorem for_each_field_names_agree_witness :
    (for_each_field sampleRegistry ConstSampleRef s567 readVisitor 0).map
        (fun r => r.calls.map Call.name) = .ok ["a", "b", "c"] ∧
    (for_each_field sampleRegistry ConstSampleRef v23 lvalueVisitor 0).map
        (fun r => r.calls) = .ok [.name_value "a" 2, .name_value "b" 3, .name_value "c" 0] ∧
    (for_each_field_meta sampleRegistry ⟨"Sample", false, false, .value⟩ plainVisitor ()).map
        (fun r => r.calls) = .ok [.name_only "a", .name_only "b", .name_only "c"] ∧
    (for_each_field sampleRegistry ConstSampleRef s567 intVisitor 0).map (fun r => r.calls)
      = .error .not_invocable ∧
    ∃ r r2 m, for_each_field sampleRegistry ConstSampleRef s567 readVisitor 0 = .ok r ∧
      for_each_field sampleRegistry ConstSampleRef v23 lvalueVisitor 0 = .ok r2 ∧
      for_each_field_meta sampleRegistry ⟨"Sample", false, false, .value⟩ plainVisitor ()
        = .ok m ∧
      r.calls.map Call.name = m.calls.map Call.name ∧
      r2.calls.map Call.name = r.calls.map Call.name ∧
      r.calls.map Call.name = Sample.reflection.map field.name ∧
      reflection_num_fields sampleRegistry ConstSampleRef = .ok Sample.reflection.length ∧
      r.calls.length = Sample.reflection.length ∧ m.calls.length = Sample.reflection.length :=
  ⟨rfl, rfl, rfl, rfl,
    for_each_field_names_agree sampleRegistry "Sample" Sample.reflection
      ConstSampleRef ⟨"Sample", false, false, .value⟩ s567 v23
      readVisitor lvalueVisitor plainVisitor 0 0 () rfl rfl rfl rfl (by decide)
      ⟨by decide, by decide, by decide, by decide⟩ ⟨by decide, by decide, by decide, by decide⟩
      ⟨by decide, by decide, by decide, by decide⟩⟩

/-- **C16.** In a call `for_each_field(val, fn)` that instantiates, descriptors that share a name
or an accessor are all kept: there is one invocation per position, the `k`-th with the name of
`ds[k]`.  When `ds[j]` and a later `ds[k]` address the same storage and no descriptor between
them does, the invocation for `ds[k]` receives the value that storage held when the invocation
for `ds[j]` returned, which is the value the visitor left there. -/
theorem for_each_field_keeps_duplicate_descriptors {V S : Type} (reg : Registry V) (T : CType)
    (ds : List (field V)) (val : Nat → V) (fn : Visitor V S) (s : S)
    (hreg : reflection_of reg T = .ok ds) (h : Instantiates T ds fn) :
    ∃ r, for_each_field reg T val fn s = .ok r ∧
      r.calls.length = ds.length ∧
      (∀ k (hk : k < ds.length), (r.calls[k]?).map Call.name = some (ds[k]).name) ∧
      ∀ j k (hjk : j < k) (hk : k < ds.length),
        (ds[j]).pointerToField = (ds[k]).pointerToField →
        (∀ i (hi : i < ds.length), j < i → i < k →
          (ds[i]).pointerToField ≠ (ds[k]).pointerToField) →
        ∃ pre post,
          internal.for_each_field T ⟨val, s, []⟩ ds (List.range j) fn = .ok pre ∧
          internal.for_each_field T ⟨val, s, []⟩ ds (List.range (j + 1)) fn = .ok post ∧
          post.val (ds[j]).pointerToField
            = (fn.answer ds[j] pre.fn (pre.val (ds[j]).pointerToField)).2 ∧
          (r.calls[k]?).bind Call.value = some (post.val (ds[j]).pointerToField) := by
  refine ⟨_, for_each_field_eq_visit_in_order reg T ds val fn s hreg h, ?_, ?_, ?_⟩
  · obtain ⟨l, hl, hlen, -, -⟩ := visit_in_order_calls fn ds ⟨val, s, []⟩
    rw [hl]
    simpa using hlen
  · intro k hk
    rw [visit_in_order_call_at fn ds val s k hk]
    unfold Visitor.shape
    split <;> rfl
  · intro j k hjk hk hsame hbetween
    have hj : j < ds.length := by omega
    refine ⟨_, _, internal_for_each_field_first_indices T ds fn _ h j (Nat.le_of_lt hj),
      internal_for_each_field_first_indices T ds fn _ h (j + 1) hj, ?_, ?_⟩
    · rw [visit_in_order_take_succ fn ds _ j hj]
      simp [visit]
    · rw [visit_in_order_call_at fn ds val s k hk]
      have hval := visit_in_order_take_val_between fn ds ⟨val, s, []⟩
        (ds[k]).pointerToField j k hjk (Nat.le_of_lt hk) hbetween
      have hshape : ∀ v, (fn.shape ds[k] v).value = some v := by
        intro v
        unfold Visitor.shape
        split <;> rfl
      simp only [Option.bind, hshape, hval, hsame]

/-- Instance of C16: on an `Alias` object `{2, 3}` the visitor is invoked for `x`, `y` and `x`
again; it writes ten times what it receives, and the second invocation for `x` receives 20. -/
theorem for_each_field_keeps_duplicate_descriptors_witness :
    (for_each_field edgeRegistry AliasRef v23 anyVisitor 0).map
        (fun r => (r.calls.map Call.name, r.calls.map Call.value, r.val 0, r.val 1))
      = .ok (["x", "y", "x"], [some 2, some 3, some 20], 200, 30) ∧
    ∃ r, for_each_field edgeRegistry AliasRef v23 anyVisitor 0 = .ok r ∧
      r.calls.length = Alias.reflection.length ∧
      (∀ k (hk : k < Alias.reflection.length),
        (r.calls[k]?).map Call.name = some (Alias.reflection[k]).name) ∧
      ∀ j k (hjk : j < k) (hk : k < Alias.reflection.length),
        (Alias.reflection[j]).pointerToField = (Alias.reflection[k]).pointerToField →
        (∀ i (hi : i < Alias.reflection.length), j < i → i < k →
          (Alias.reflection[i]).pointerToField ≠ (Alias.reflection[k]).pointerToField) →
        ∃ pre post,
          internal.for_each_field AliasRef ⟨v23, 0, []⟩ Alias.reflection (List.range j)
            anyVisitor = .ok pre ∧
          internal.for_each_field AliasRef ⟨v23, 0, []⟩ Alias.reflection (List.range (j + 1))
            anyVisitor = .ok post ∧
          post.val (Alias.reflection[j]).pointerToField
            = (anyVisitor.answer Alias.reflection[j] pre.fn
                (pre.val (Alias.reflection[j]).pointerToField)).2 ∧
          (r.calls[k]?).bind Call.value
            = some (post.val (Alias.reflection[j]).pointerToField) :=
  ⟨rfl, for_each_field_keeps_duplicate_descriptors edgeRegistry AliasRef Alias.reflection v23
    anyVisitor 0 rfl ⟨by decide, by decide, by decide, by decide⟩⟩

/-! ## Engine: the traits test other arguments than the calls pass -/

/-- **C3 (the code departs from the claim).** On `Point{x: 3, y: 4}`.  The visitor
`lvalueVisitor` accepts, for every field, the call `fn(fld.name, val.*(fld.pointerToField), fld)`
and the call `fn(fld.name, val.*(fld.pointerToField))`; the trait of line 57, which tests a
non-const rvalue descriptor, is false for every field, and the visitor receives the narrow
shape.  For the visitor `rvalueVisitor` the trait holds for every field and the narrow call is
well-formed, but the call with the descriptor, which passes the const lvalue `fld`, is not:
the enumeration is rejected instead of making the narrow call. -/
theorem visitor_accepting_both_shapes_receives_narrow :
    reflection_of pointRegistry PointRef = .ok Point.reflection ∧
    Point.reflection.all (fun d => lvalueVisitor.accepts_name_value_field PointRef d.args)
      = true ∧
    Point.reflection.all (fun d => lvalueVisitor.accepts_name_value PointRef d.FieldType)
      = true ∧
    Point.reflection.all (fun d => !lvalueVisitor.invocable_name_value_field d.args) = true ∧
    (for_each_field pointRegistry PointRef p34 lvalueVisitor 0).map (fun r => r.calls)
      = .ok [.name_value "x" 3, .name_value "y" 4] ∧
    Point.reflection.all (fun d => rvalueVisitor.invocable_name_value_field d.args) = true ∧
    Point.reflection.all (fun d => !rvalueVisitor.accepts_name_value_field PointRef d.args)
      = true ∧
    Point.reflection.all (fun d => rvalueVisitor.accepts_name_value PointRef d.FieldType)
      = true ∧
    (for_each_field pointRegistry PointRef p34 rvalueVisitor 0).map (fun r => r.calls)
      = .error .not_invocable :=
  ⟨rfl, rfl, rfl, rfl, rfl, rfl, rfl, rfl, rfl⟩

/-- **C4 (the code departs from the claim).** On `Point`, metadata only.  The visitor
`lvalueVisitor` accepts, for every field, the call `fn(fld.name, fld)` and the call
`fn(fld.name)`; the trait of line 65, which tests a non-const rvalue descriptor, is false for
every field, and the visitor receives the name alone.  For the visitor `rvalueVisitor` the
trait holds for every field and `fn(fld.name)` is well-formed, but `fn(fld.name, fld)`, which
passes the const lvalue `fld`, is not: the enumeration is rejected instead of passing the name
alone. -/
theorem meta_visitor_accepting_both_shapes_receives_name :
    reflection_of pointRegistry PointT = .ok Point.reflection ∧
    Point.reflection.all (fun d => lvalueVisitor.accepts_name_field d.args) = true ∧
    lvalueVisitor.invocable_name = true ∧
    Point.reflection.all (fun d => !lvalueVisitor.invocable_name_field d.args) = true ∧
    (for_each_field_meta pointRegistry PointT lvalueVisitor 0).map (fun r => r.calls)
      = .ok [.name_only "x", .name_only "y"] ∧
    Point.reflection.all (fun d => rvalueVisitor.invocable_name_field d.args) = true ∧
    Point.reflection.all (fun d => !rvalueVisitor.accepts_name_field d.args) = true ∧
    rvalueVisitor.invocable_name = true ∧
    (for_each_field_meta pointRegistry PointT rvalueVisitor 0).map (fun r => r.calls)
      = .error .not_invocable :=
  ⟨rfl, rfl, rfl, rfl, rfl, rfl, rfl, rfl, rfl⟩

end mirror
